import Mathlib

/-!
Shallow embedding of the CAGED dashboard's core data pipeline
(`src/data/data_processor.py`, class `DataProcessor`, and the bar-chart
data preparation of `src/visualization/plots.py`, `PlotGenerator.create_bar_chart`).

A pandas `DataFrame` is modelled as an ordered list of named columns; each
column carries a declared dtype class (`numeric` for int64/float64,
`categorical` for object/category, `temporal` for datetime64) and a list of
cells.  A cell is a rational number, a string, or `missing` (NaN/NaT).
Machine floats are modelled by `ℚ`; none of the claims depend on float
rounding.  Fallible pandas operations (`mode()[0]` on an empty mode series,
`to_datetime` on unparseable input, `describe()` on a frame without columns,
comparison of a column with an array-like of mismatched length) are modelled
with `Except String`.
-/

namespace Caged

/-- One cell of a table: a numeric value, a string value, or a missing
marker (pandas NaN/NaT). -/
inductive Cell
  | num (q : ℚ)
  | str (s : String)
  | missing
deriving DecidableEq, Repr

/-- Dtype class of a pandas column: `numeric` covers int64/float64 (the
`select_dtypes(include=['int64','float64'])` selection), `categorical`
covers object/category, `temporal` covers datetime64 (selected by
neither of the two `select_dtypes` calls in the source). -/
inductive ColKind
  | numeric
  | categorical
  | temporal
deriving DecidableEq, Repr

/-- A named column of a DataFrame. -/
structure Col where
  name : String
  kind : ColKind
  cells : List Cell
deriving DecidableEq, Repr

/-- A DataFrame: an ordered list of named columns. -/
abbrev Table := List Col

instance {ε α : Type} [DecidableEq ε] [DecidableEq α] : DecidableEq (Except ε α) := fun a b =>
  match a, b with
  | .ok x, .ok y =>
    if h : x = y then .isTrue (by rw [h]) else .isFalse (fun hc => h (Except.ok.inj hc))
  | .error x, .error y =>
    if h : x = y then .isTrue (by rw [h]) else .isFalse (fun hc => h (Except.error.inj hc))
  | .ok _, .error _ => .isFalse (fun hc => Except.noConfusion hc)
  | .error _, .ok _ => .isFalse (fun hc => Except.noConfusion hc)

/-- `df['x']`: the first column named `x`. -/
def getCol (t : Table) (n : String) : Option Col :=
  match t with
  | [] => none
  | c :: cs => if c.name = n then some c else getCol cs n

/-- `'x' in df.columns`. -/
def hasCol (t : Table) (n : String) : Bool :=
  t.any (fun c => c.name = n)

/-- `df['x'] = v`: overwrite every column named `x` in place, or append a
new column when the name is absent. -/
def setCol (t : Table) (c : Col) : Table :=
  if hasCol t c.name then t.map (fun d => if d.name = c.name then c else d)
  else t ++ [c]

/-- Number of rows of the frame (length of its first column; pandas keeps
all columns the same length). -/
def numRows (t : Table) : Nat :=
  match t with
  | [] => 0
  | c :: _ => c.cells.length

/-- The column names, in order. -/
def colNames (t : Table) : List String := t.map (·.name)

/-- A table is well-formed when every column has the same length (pandas
maintains this invariant for every DataFrame). -/
def Wf (t : Table) : Prop := ∀ c ∈ t, c.cells.length = numRows t

/-- The numeric values among a column's cells (`dropna` view of a numeric
column). -/
def presentNums (l : List Cell) : List ℚ :=
  l.filterMap (fun c => match c with | .num q => some q | _ => none)

/-- The non-missing cells of a column. -/
def presentCells (l : List Cell) : List Cell :=
  l.filter (fun c => c ≠ Cell.missing)

/-- Insertion into a list sorted by `le`. -/
def insertLe (le : α → α → Bool) (a : α) : List α → List α
  | [] => [a]
  | b :: bs => if le a b then a :: b :: bs else b :: insertLe le a bs

/-- Insertion sort by `le` (stable: ties keep their original order). -/
def sortLe (le : α → α → Bool) : List α → List α
  | [] => []
  | a :: as => insertLe le a (sortLe le as)

/-- `Series.median()` over the present values: sort, take the middle
element, or the average of the two middles for even counts; `NaN`
(here `none`) when there are no present values. -/
def median (l : List ℚ) : Option ℚ :=
  let s := sortLe (fun a b => decide (a ≤ b)) l
  let n := s.length
  if n = 0 then none
  else if n % 2 = 1 then s[n / 2]?
  else
    match s[n / 2 - 1]?, s[n / 2]? with
    | some a, some b => some ((a + b) / 2)
    | _, _ => none

/-- String `<` (the order of Python and pandas strings: lexicographic by
code point), decided structurally on the underlying character list. -/
def strLt (a b : String) : Bool := decide (a.data < b.data)

/-- Ordering used by pandas when it sorts values (ascending); numbers
compare numerically, strings lexicographically.  pandas cannot sort a
mixture of numbers and strings (it raises); the claims only exercise
homogeneous columns, and the model puts numbers before strings. -/
def cellLe (a b : Cell) : Bool :=
  match a, b with
  | .num x, .num y => decide (x ≤ y)
  | .str x, .str y => !(strLt y x)
  | .num _, .str _ => true
  | .str _, .num _ => false
  | .missing, _ => true
  | _, .missing => false

/-- Least element of a list under `cellLe`. -/
def minCell (l : List Cell) : Option Cell :=
  match l with
  | [] => none
  | a :: as => some (as.foldl (fun x y => if cellLe y x then y else x) a)

/-- `Series.mode()[0]`: among the non-missing values, those with maximal
frequency, returned by pandas in ascending sorted order; `[0]` takes the
least.  `none` models the empty mode series (all values missing), where
the source's `mode()[0]` raises `KeyError`. -/
def pandasMode (l : List Cell) : Option Cell :=
  let present := presentCells l
  let uniq := present.dedup
  let maxCount := (uniq.map (fun v => present.count v)).foldr max 0
  minCell (uniq.filter (fun v => present.count v = maxCount))

/-- `fillna`: replace a missing cell by `v`. -/
def fillCell (v : Cell) (c : Cell) : Cell :=
  match c with
  | .missing => v
  | c => c

/-- One column of `_handle_missing_values`: numeric columns with a missing
entry are filled with the column median (`fillna` with NaN when every value
is missing leaves the column untouched); categorical columns with a missing
entry are filled with `mode()[0]`, which raises when the mode series is
empty; temporal columns are selected by neither dtype filter and pass
through. -/
def imputeCol (c : Col) : Except String Col :=
  match c.kind with
  | .numeric =>
    if c.cells.contains Cell.missing then
      match median (presentNums c.cells) with
      | some m => .ok { c with cells := c.cells.map (fillCell (.num m)) }
      | none => .ok c
    else .ok c
  | .categorical =>
    if c.cells.contains Cell.missing then
      match pandasMode c.cells with
      | some m => .ok { c with cells := c.cells.map (fillCell m) }
      | none => .error "KeyError: 0 (mode of an all-missing column is empty)"
    else .ok c
  | .temporal => .ok c

/-- Structural `mapM` for `Except`, used instead of `List.mapM` so that
proofs can proceed by plain structural induction. -/
def exceptMap (f : α → Except String β) : List α → Except String (List β)
  | [] => .ok []
  | a :: as =>
    match f a with
    | .error e => .error e
    | .ok b =>
      match exceptMap f as with
      | .error e => .error e
      | .ok bs => .ok (b :: bs)

/-- `DataProcessor._handle_missing_values`: impute every column in order.
The source loops over the numeric columns first and the categorical ones
second; only categorical columns can fail, so the loop order does not
affect the result and a single ordered traversal is equivalent. -/
def handleMissingValues (t : Table) : Except String Table :=
  exceptMap imputeCol t

/-- `self.sexo_mapping` (string keys). -/
def sexoMapping : List (String × String) :=
  [("1", "Masculino"), ("2", "Feminino")]

/-- `self.grau_instrucao_mapping` (integer keys). -/
def grauInstrucaoMapping : List (ℚ × String) :=
  [(1, "Analfabeto"), (2, "Até 5ª Incompleto"), (3, "5ª Completo Fundamental"),
   (4, "6ª a 9ª Fundamental"), (5, "Fundamental Completo"), (6, "Médio Incompleto"),
   (7, "Médio Completo"), (8, "Superior Incompleto"), (9, "Superior Completo")]

/-- `self.tipo_movimentacao_mapping` (integer keys). -/
def tipoMovimentacaoMapping : List (ℚ × String) :=
  [(1, "Admissão"), (2, "Desligamento"), (3, "Transferência")]

/-- `Series.map(dict)` with string keys: unmapped or missing values become
NaN. -/
def mapCellStr (m : List (String × String)) (c : Cell) : Cell :=
  match c with
  | .str s =>
    match m.find? (fun p => p.1 = s) with
    | some p => .str p.2
    | none => .missing
  | _ => .missing

/-- `Series.map(dict)` with integer keys: unmapped or missing values become
NaN. -/
def mapCellNum (m : List (ℚ × String)) (c : Cell) : Cell :=
  match c with
  | .num q =>
    match m.find? (fun p => p.1 = q) with
    | some p => .str p.2
    | none => .missing
  | _ => .missing

/-- The skip-if-absent pattern shared by decoding and bracket synthesis:
when `src` is present, write `tgt` as the cell-wise image of `src`,
otherwise leave the table unchanged. -/
def mapStep (t : Table) (src tgt : String) (k : ColKind) (f : Cell → Cell) : Table :=
  match getCol t src with
  | some c => setCol t ⟨tgt, k, c.cells.map f⟩
  | none => t

/-- `DataProcessor._decode_categorical`: three skip-if-absent decode steps
producing object-dtype `_desc` columns. -/
def decodeCategorical (t : Table) : Table :=
  let t1 := mapStep t "sexo" "sexo_desc" .categorical (mapCellStr sexoMapping)
  let t2 := mapStep t1 "grau_instrucao" "grau_instrucao_desc" .categorical
    (mapCellNum grauInstrucaoMapping)
  mapStep t2 "tipo_movimentacao" "tipo_movimentacao_desc" .categorical
    (mapCellNum tipoMovimentacaoMapping)

/-- The age bins of `_create_derived_fields`:
`pd.cut(idade, bins=[0,18,25,35,45,55,65,100], right=False)`, i.e. the
half-open intervals `[lo, hi)` with the labels below. -/
def ageBins : List (ℚ × ℚ × String) :=
  [(0, 18, "<18"), (18, 25, "18-24"), (25, 35, "25-34"), (35, 45, "35-44"),
   (45, 55, "45-54"), (55, 65, "55-64"), (65, 100, "65+")]

/-- The bounded salary bins of `_create_derived_fields`
(`bins=[0,1100,2200,3300,5000,10000,inf]`, `right=False`); the last bin
`[10000, inf)` is unbounded and handled separately in `cutSalaryCell`. -/
def salaryBins : List (ℚ × ℚ × String) :=
  [(0, 1100, "Até 1 SM"), (1100, 2200, "1-2 SM"), (2200, 3300, "2-3 SM"),
   (3300, 5000, "3-5 SM"), (5000, 10000, "5-10 SM")]

/-- `pd.cut(·, bins, right=False)` on one cell over bounded bins: the label
of the interval `[lo, hi)` containing the value, NaN outside every bin or
for a non-numeric/missing cell. -/
def cutCell (bins : List (ℚ × ℚ × String)) (c : Cell) : Cell :=
  match c with
  | .num q =>
    match bins.find? (fun b => decide (b.1 ≤ q) && decide (q < b.2.1)) with
    | some b => .str b.2.2
    | none => .missing
  | _ => .missing

/-- `pd.cut` for the salary bins, whose final bin `[10000, inf)` is
unbounded above. -/
def cutSalaryCell (c : Cell) : Cell :=
  match c with
  | .num q =>
    if 10000 ≤ q then .str "10+ SM" else cutCell salaryBins c
  | _ => .missing

/-- One cell of
`pd.to_datetime(ano.astype(str) + '-' + mes.astype(str) + '-01')`.
Missing inputs render as `'nan'` and make `to_datetime` raise; pandas also
raises when the month is out of `1..12` or when a fractional value renders
with a decimal point.  (The model renders an integral rational the way
int64 `astype(str)` does; it does not track the float64 dtype a column
keeps after `fillna`, where even integral values render as `'2021.0'`.) -/
def makeDateCell (a m : Cell) : Except String Cell :=
  match a, m with
  | .num ya, .num mo =>
    if ya.den = 1 ∧ mo.den = 1 ∧ 1 ≤ mo.num ∧ mo.num ≤ 12 ∧ 1 ≤ ya.num then
      .ok (.str (toString ya.num ++ "-" ++ toString mo.num ++ "-01"))
    else .error "to_datetime: unable to parse date"
  | _, _ => .error "to_datetime: unable to parse 'nan'"

/-- The `data` synthesis step of `_create_derived_fields`: present only
when both `ano` and `mes` exist; datetime64 dtype. -/
def deriveDate (t : Table) : Except String Table :=
  match getCol t "ano", getCol t "mes" with
  | some ca, some cm =>
    match exceptMap (fun p => makeDateCell p.1 p.2) (ca.cells.zip cm.cells) with
    | .error e => .error e
    | .ok d => .ok (setCol t ⟨"data", .temporal, d⟩)
  | _, _ => .ok t

/-- `DataProcessor._create_derived_fields`: date synthesis, then the two
`pd.cut` bracket columns (category dtype), each skip-if-absent. -/
def createDerivedFields (t : Table) : Except String Table :=
  match deriveDate t with
  | .error e => .error e
  | .ok t1 =>
    .ok (mapStep (mapStep t1 "idade" "faixa_etaria" .categorical (cutCell ageBins))
      "salario" "faixa_salarial" .categorical cutSalaryCell)

/-- The decoding and derivation stages of `process_data`, after
imputation. -/
def enrich (t : Table) : Except String Table :=
  createDerivedFields (decodeCategorical t)

/-- `DataProcessor.process_data`: imputation, then categorical decoding,
then derived-field synthesis, on a copy of the input. -/
def processData (t : Table) : Except String Table :=
  match handleMissingValues t with
  | .error e => .error e
  | .ok a => enrich a

/-! ### Grouping machinery shared by `aggregate_by_period` and the bar
chart's `groupby(...).size()` / `groupby(...)[y].mean()` preparations. -/

/-- Lexicographic ordering on group keys (pandas sorts groups ascending by
key tuple, `sort=True` being the `groupby` default). -/
def keyLe : List Cell → List Cell → Bool
  | [], _ => true
  | _ :: _, [] => false
  | a :: as, b :: bs => if a = b then keyLe as bs else cellLe a b

/-- The group key of row `i` for the group columns `gcols`; `none` when a
key cell is missing (`groupby` drops NaN keys, `dropna=True` default) or
out of range. -/
def rowKey (t : Table) (gcols : List String) (i : Nat) : Option (List Cell) :=
  gcols.mapM (fun g =>
    match getCol t g with
    | some c =>
      match c.cells[i]? with
      | some Cell.missing => none
      | some v => some v
      | none => none
    | none => none)

/-- The distinct group keys, in pandas order (ascending). -/
def groupKeys (t : Table) (gcols : List String) : List (List Cell) :=
  sortLe keyLe (((List.range (numRows t)).filterMap (rowKey t gcols)).dedup)

/-- The row indices belonging to group `k`. -/
def groupRows (t : Table) (gcols : List String) (k : List Cell) : List Nat :=
  (List.range (numRows t)).filter (fun i => rowKey t gcols i = some k)

/-- The cells of column `m` at the rows `idxs`. -/
def cellsAt (t : Table) (m : String) (idxs : List Nat) : List Cell :=
  match getCol t m with
  | some c => idxs.filterMap (fun i => c.cells[i]?)
  | none => []

/-- Smallest element of a list of rationals. -/
def minQ : List ℚ → Option ℚ
  | [] => none
  | x :: xs => some (xs.foldl min x)

/-- Largest element of a list of rationals. -/
def maxQ : List ℚ → Option ℚ
  | [] => none
  | x :: xs => some (xs.foldl max x)

/-- The dtype class of the named column (categorical when absent; the
callers only use it for present columns). -/
def colKindOf (t : Table) (n : String) : ColKind :=
  match getCol t n with
  | some c => c.kind
  | none => .categorical

/-- The statistics `aggregate_by_period` computes per metric, in source
order (`['mean', 'median', 'min', 'max', 'count']`). -/
def statNames : List String := ["mean", "median", "min", "max", "count"]

/-- One aggregated statistic over the cells of a metric column within a
group.  pandas `mean`/`median`/`min`/`max` skip NaN and yield NaN for a
group with no present values; `count` counts the present values. -/
def statOf (s : String) (vals : List Cell) : Cell :=
  let p := presentNums vals
  match s with
  | "mean" =>
    match p with
    | [] => .missing
    | _ => .num (p.sum / p.length)
  | "median" =>
    match median p with
    | some q => .num q
    | none => .missing
  | "min" =>
    match minQ p with
    | some q => .num q
    | none => .missing
  | "max" =>
    match maxQ p with
    | some q => .num q
    | none => .missing
  | "count" => .num p.length
  | _ => .missing

/-- The grouping columns of a `reset_index()` result: one row per group,
holding the key components as plain columns. -/
def groupKeyCols (t : Table) (gcols : List String) : Table :=
  let keys := groupKeys t gcols
  gcols.enum.map (fun p =>
    { name := p.2, kind := colKindOf t p.2,
      cells := keys.map (fun k => k.getD p.1 Cell.missing) })

/-- `DataProcessor.aggregate_by_period`: drop the requested group/metric
columns that are absent; with nothing left on either side return
`pd.DataFrame()`; otherwise group by the surviving columns and compute,
per metric, the five statistics, with flattened `{metric}_{stat}` column
names and the grouping columns restored by `reset_index()`.
(The model evaluates the statistics with NaN-skipping numeric semantics;
pandas raises on `mean` of a non-numeric metric column, a case no claim
exercises.) -/
def aggregateByPeriod (t : Table) (groupBy metrics : List String) : Table :=
  let validG := groupBy.filter (fun g => hasCol t g)
  let validM := metrics.filter (fun m => hasCol t m)
  if validG.isEmpty ∨ validM.isEmpty then []
  else
    let keys := groupKeys t validG
    groupKeyCols t validG ++
      validM.flatMap (fun m =>
        statNames.map (fun s =>
          { name := m ++ "_" ++ s, kind := ColKind.numeric,
            cells := keys.map (fun k => statOf s (cellsAt t m (groupRows t validG k))) }))

/-! ### `DataProcessor.get_summary_statistics` -/

/-- `Series.quantile(q)` on sorted present values, with pandas' linear
interpolation: at fractional position `q * (n - 1)`. -/
def quantileSorted (s : List ℚ) (q : ℚ) : Option ℚ :=
  match s with
  | [] => none
  | _ =>
    let pos : ℚ := q * ((s.length : ℚ) - 1)
    let i : Nat := (Int.floor pos).toNat
    let frac : ℚ := pos - (i : ℚ)
    match s[i]?, s[i + 1]? with
    | some a, some b => some (a + frac * (b - a))
    | some a, none => some a
    | none, _ => none

/-- The per-column rows of `DataFrame.describe()`: count of present
values, mean, min, the three quartiles, max.  `describe` also reports the
standard deviation; its square, the sample variance, is carried here since
the square root of a rational is irrational in general (no claim examines
the standard deviation's value). -/
structure NumStats where
  count : Nat
  mean : Option ℚ
  variance : Option ℚ
  min : Option ℚ
  q25 : Option ℚ
  q50 : Option ℚ
  q75 : Option ℚ
  max : Option ℚ
deriving DecidableEq, Repr

/-- `describe()` for one numeric column. -/
def describeCol (c : Col) : NumStats :=
  let p := presentNums c.cells
  let s := sortLe (fun a b => decide (a ≤ b)) p
  let n := p.length
  let mean : Option ℚ := match p with | [] => none | _ => some (p.sum / n)
  let variance : Option ℚ :=
    match mean with
    | some mu =>
      if n ≥ 2 then some ((p.map (fun x => (x - mu) ^ 2)).sum / ((n : ℚ) - 1)) else none
    | none => none
  { count := n, mean := mean, variance := variance,
    min := minQ p, q25 := quantileSorted s (1 / 4), q50 := quantileSorted s (1 / 2),
    q75 := quantileSorted s (3 / 4), max := maxQ p }

/-- `Series.value_counts()`: present values with their occurrence counts,
ordered by descending count (ties keep first-encountered order). -/
def valueCounts (c : Col) : List (Cell × Nat) :=
  let present := presentCells c.cells
  sortLe (fun a b => decide (b.2 ≤ a.2)) (present.dedup.map (fun v => (v, present.count v)))

/-- The summary returned by `get_summary_statistics`: the numeric
`describe()` frame and the categorical `value_counts` mapping. -/
structure Summary where
  numeric : List (String × NumStats)
  categorical : List (String × List (Cell × Nat))
deriving DecidableEq, Repr

/-- `DataProcessor.get_summary_statistics`.  `df[numeric_cols].describe()`
raises `ValueError: Cannot describe a DataFrame without columns` whenever
the numeric selection is empty — in particular on an empty table. -/
def getSummaryStatistics (t : Table) : Except String Summary :=
  let numericCols := t.filter (fun c => c.kind = ColKind.numeric)
  let categoricalCols := t.filter (fun c => c.kind = ColKind.categorical)
  if numericCols.isEmpty then
    .error "ValueError: Cannot describe a DataFrame without columns"
  else
    .ok { numeric := numericCols.map (fun c => (c.name, describeCol c)),
          categorical := categoricalCols.map (fun c => (c.name, valueCounts c)) }

/-! ### `DataProcessor.filter_data` -/

/-- A Python value supplied as a filter predicate: a scalar (string or
number), a list, or a tuple.  (`isinstance(v, (int, float))` matches the
numeric scalars; `isinstance(value, list)` matches only lists.) -/
inductive PyVal
  | pnum (q : ℚ)
  | pstr (s : String)
  | plist (l : List PyVal)
  | ptuple (l : List PyVal)

/-- `isinstance(v, (int, float))`. -/
def PyVal.isNumeric : PyVal → Bool
  | .pnum _ => true
  | _ => false

/-- The guard of the range branch:
`isinstance(value, (list, tuple)) and len(value) == 2 and all(isinstance(v, (int, float)) for v in value)`. -/
def isRangePair : PyVal → Bool
  | .plist [a, b] => a.isNumeric && b.isNumeric
  | .ptuple [a, b] => a.isNumeric && b.isNumeric
  | _ => false

/-- The two bounds of a range pair. -/
def rangeBounds : PyVal → Option (ℚ × ℚ)
  | .plist [.pnum a, .pnum b] => some (a, b)
  | .ptuple [.pnum a, .pnum b] => some (a, b)
  | _ => none

/-- Scalar equality of a cell with a Python value (`==` on a cell):
matching scalars compare by value, NaN compares unequal to everything, and
a scalar never equals a container. -/
def cellEqPy (c : Cell) (v : PyVal) : Bool :=
  match c, v with
  | .num q, .pnum p => q = p
  | .str s, .pstr p => s = p
  | _, _ => false

/-- The mask of `(df[col] >= lo) & (df[col] <= hi)`.  On an object column
holding strings the comparison with a number raises `TypeError`; NaN
compares `False`. -/
def rangeMask (cells : List Cell) (lo hi : ℚ) : Except String (List Bool) :=
  exceptMap (fun c =>
    match c with
    | Cell.num q => .ok (decide (lo ≤ q) && decide (q ≤ hi))
    | Cell.missing => .ok false
    | Cell.str _ => .error "TypeError: '>=' not supported between str and number") cells

/-- The mask of `df[col].isin(values)` (never raises; NaN is in no list of
present values). -/
def isinMask (cells : List Cell) (l : List PyVal) : List Bool :=
  cells.map (fun c => l.any (cellEqPy c))

/-- The mask of `df[col] == value` in the equality branch.  A tuple is
array-like to pandas: the comparison is elementwise by position and raises
`ValueError` unless its length equals the column length.  (Lists never
reach this branch: the `elif isinstance(value, list)` arm catches every
list that is not a numeric pair.) -/
def eqMask (cells : List Cell) (v : PyVal) : Except String (List Bool) :=
  match v with
  | .ptuple l =>
    if l.length = cells.length then .ok ((cells.zip l).map (fun p => cellEqPy p.1 p.2))
    else .error "ValueError: Lengths must match to compare"
  | .plist l =>
    if l.length = cells.length then .ok ((cells.zip l).map (fun p => cellEqPy p.1 p.2))
    else .error "ValueError: Lengths must match to compare"
  | _ => .ok (cells.map (fun c => cellEqPy c v))

/-- Keep the entries of `d` whose mask bit is `true` (boolean indexing of
one column). -/
def selectRows (d : List α) (m : List Bool) : List α :=
  (d.zip m).filterMap (fun p => if p.2 then some p.1 else none)

/-- Boolean indexing of the whole frame, `df[mask]`. -/
def applyMask (t : Table) (m : List Bool) : Table :=
  t.map (fun c => { c with cells := selectRows c.cells m })

/-- The boolean mask one `(column, value)` entry computes over the
column's cells: a two-element all-numeric list or tuple selects the
closed range `[lo, hi]`; any other list selects membership; anything
else goes through `==`. -/
def maskOf (c : Col) (v : PyVal) : Except String (List Bool) :=
  if isRangePair v then
    match rangeBounds v with
    | some (lo, hi) => rangeMask c.cells lo hi
    | none => .ok []
  else
    match v with
    | .plist l => .ok (isinMask c.cells l)
    | _ => eqMask c.cells v

/-- One `(column, value)` entry of the loop of `filter_data`: unknown
columns are skipped, otherwise the entry's mask is applied to the whole
frame. -/
def filterOne (t : Table) (column : String) (v : PyVal) : Except String Table :=
  match getCol t column with
  | none => .ok t
  | some c =>
    match maskOf c v with
    | .error e => .error e
    | .ok m => .ok (applyMask t m)

/-- `DataProcessor.filter_data`: apply the predicate entries sequentially,
in dict (insertion) order, each narrowing the previous result. -/
def filterData (t : Table) : List (String × PyVal) → Except String Table
  | [] => .ok t
  | (column, v) :: rest =>
    match filterOne t column v with
    | .error e => .error e
    | .ok t1 => filterData t1 rest

/-! ### `PlotGenerator.create_bar_chart` — data preparation -/

/-- `df.groupby(gcols).size().reset_index(name='count')`: one row per
group (NaN keys dropped, keys ascending), with the group sizes in a
`count` column. -/
def sizeGroupby (t : Table) (gcols : List String) : Table :=
  let keys := groupKeys t gcols
  groupKeyCols t gcols ++
    [{ name := "count", kind := ColKind.numeric,
       cells := keys.map (fun k => Cell.num (groupRows t gcols k).length) }]

/-- `df.groupby(gcols)[y].mean().reset_index()`: one row per group with
the NaN-skipping mean of `y` (NaN for a group with no present values). -/
def meanGroupby (t : Table) (gcols : List String) (y : String) : Table :=
  let keys := groupKeys t gcols
  groupKeyCols t gcols ++
    [{ name := y, kind := ColKind.numeric,
       cells := keys.map (fun k => statOf "mean" (cellsAt t y (groupRows t gcols k))) }]

/-- `df.sort_values(by=sc)`: stable ascending reorder of the rows by the
cells of column `sc`, NaN rows last (`na_position='last'`). -/
def cellSortLe (a b : Cell) : Bool :=
  match a, b with
  | .missing, .missing => true
  | .missing, _ => false
  | _, .missing => true
  | a, b => cellLe a b

/-- Row reordering of the whole frame by column `sc`. -/
def sortTableBy (t : Table) (sc : String) : Table :=
  match getCol t sc with
  | none => t
  | some c =>
    let order := sortLe (fun i j =>
      cellSortLe (c.cells.getD i Cell.missing) (c.cells.getD j Cell.missing))
      (List.range (numRows t))
    t.map (fun d => { d with cells := order.filterMap (fun i => d.cells[i]?) })

/-- The chart data `create_bar_chart` hands to `px.bar`, together with the
name of the Y column it binds (`'count'` in the counting branches).  An
`error` models the early-returned empty placeholder figure. -/
structure BarData where
  chartData : Table
  yName : String
deriving DecidableEq, Repr

/-- Data preparation of `PlotGenerator.create_bar_chart` (the subsequent
orientation/title/label handling only affects rendering): with no Y
column the per-bucket row count is used; with a Y column and a present
grouping column the per-(X, group) mean is used; with a Y column and no
grouping column the frame is passed through unaggregated (`df.copy()`). -/
def barChartData (t : Table) (x : String) (y : Option String)
    (group : Option String) (sortBy : Option String) : Except String BarData :=
  if ¬ hasCol t x then
    .error "Dados não disponíveis para gráfico de barras"
  else
    let stepE : Except String (Table × String) :=
      match y with
      | none =>
        match group with
        | some g =>
          if hasCol t g then .ok (sizeGroupby t [x, g], "count")
          else .ok (sizeGroupby t [x], "count")
        | none => .ok (sizeGroupby t [x], "count")
      | some yc =>
        if ¬ hasCol t yc then
          .error ("Coluna " ++ yc ++ " não disponível para gráfico de barras")
        else
          match group with
          | some g =>
            if hasCol t g then .ok (meanGroupby t [x, g] yc, yc)
            else .ok (t, yc)
          | none => .ok (t, yc)
    match stepE with
    | .error e => .error e
    | .ok (cd, yc) =>
      let cd :=
        match sortBy with
        | some sc => if hasCol cd sc then sortTableBy cd sc else cd
        | none => cd
      .ok ⟨cd, yc⟩

/-! ## Spec-side comparison definitions -/

/-- The tie-break rule asserted by the specification for categorical
imputation, written from its words: the most frequent value, ties broken
by the first-encountered value in column order.  It is compared against
the source's `pandasMode`, whose tie-break is the least value (pandas
returns the modes sorted ascending and `[0]` takes the first). -/
def modeFirstEncountered (l : List Cell) : Option Cell :=
  let present := presentCells l
  let maxCount := (present.map (fun v => present.count v)).foldr max 0
  present.find? (fun v => present.count v = maxCount)

/-- The row-local predicate semantics the specification ascribes to one
filter entry: a numeric pair bounds a closed range (false on missing or
non-numeric cells), any other list is membership, anything else is
scalar equality. -/
def cellPass (c : Cell) (v : PyVal) : Bool :=
  if isRangePair v then
    match rangeBounds v, c with
    | some (lo, hi), .num q => decide (lo ≤ q) && decide (q ≤ hi)
    | _, _ => false
  else
    match v with
    | .plist l => l.any (cellEqPy c)
    | _ => cellEqPy c v

/-- The row mask of one filter entry over the whole table: all-true when
the column is unknown (the entry is ignored), otherwise `cellPass`
applied cell-wise. -/
def predMask (t : Table) (p : String × PyVal) : List Bool :=
  match getCol t p.1 with
  | none => List.replicate (numRows t) true
  | some c => c.cells.map (fun cell => cellPass cell p.2)

/-- The conjunction (logical AND) of all the entries' masks. -/
def conjMask (t : Table) (fs : List (String × PyVal)) : List Bool :=
  fs.foldr (fun p acc => List.zipWith (· && ·) (predMask t p) acc)
    (List.replicate (numRows t) true)

/-- A tuple that reaches the equality branch (not a numeric pair): the
one predicate shape whose pandas semantics is not row-local. -/
def eqBranchTuple (v : PyVal) : Bool :=
  match v with
  | .ptuple _ => !(isRangePair v)
  | _ => false

/-- The three-row fixture of C4's concrete aggregation example. -/
def c4t : Table :=
  [⟨"ano", .numeric, [.num 2021, .num 2021, .num 2022]⟩,
   ⟨"salario", .numeric, [.num 1000, .num 3000, .num 500]⟩]

/-- The four-row fixture of C5's witness. -/
def c5t : Table :=
  [⟨"salario", .numeric, [.num 1500, .num 2500, .num 1200, .num 900]⟩,
   ⟨"uf", .categorical, [.str "SP", .str "MG", .str "RJ", .str "SP"]⟩]

/-- The specification's example predicate mapping
`{salario: [1000, 2000], uf: ['SP', 'RJ']}`. -/
def c5fs : List (String × PyVal) :=
  [("salario", .plist [.pnum 1000, .pnum 2000]),
   ("uf", .plist [.pstr "SP", .pstr "RJ"])]

/-- The two-column fixture of the C9 counterexample: two rows in the same
X bucket with metric values 1 and 3. -/
def c9t : Table :=
  [⟨"x", .categorical, [.str "a", .str "a"]⟩, ⟨"v", .numeric, [.num 1, .num 3]⟩]

/-- The six column names written by decoding and derivation, in write
order. -/
def targetNames : List String :=
  ["sexo_desc", "grau_instrucao_desc", "tipo_movimentacao_desc", "data",
   "faixa_etaria", "faixa_salarial"]

/-- The target names whose source columns are present, i.e. the columns
decoding/derivation actually overwrites for this table. -/
def activeTargets (t : Table) : List String :=
  (if hasCol t "sexo" then ["sexo_desc"] else [])
  ++ (if hasCol t "grau_instrucao" then ["grau_instrucao_desc"] else [])
  ++ (if hasCol t "tipo_movimentacao" then ["tipo_movimentacao_desc"] else [])
  ++ (if hasCol t "ano" && hasCol t "mes" then ["data"] else [])
  ++ (if hasCol t "idade" then ["faixa_etaria"] else [])
  ++ (if hasCol t "salario" then ["faixa_salarial"] else [])

/-- Column-list agreement up to a set `K` of exempt names: `Q` has the same
column names as `P` in the same order, and every column whose name is not in
`K` is identical.  Tracks, across one `process_data` pass, which columns of
the re-processed table may differ from the first pass's output. -/
def TDiff (K : List String) (P Q : Table) : Prop :=
  List.Forall₂ (fun p q => q.name = p.name ∧ (p.name ∉ K → q = p)) P Q

/-- The C6 counterexample input: every decode/derive target column is
present, and `sexo` holds the unmapped code `'3'`. -/
def c6t : Table :=
  [⟨"sexo", .categorical, [.str "3"]⟩,
   ⟨"sexo_desc", .categorical, [.str "x"]⟩,
   ⟨"grau_instrucao_desc", .categorical, [.str "g"]⟩,
   ⟨"tipo_movimentacao_desc", .categorical, [.str "m"]⟩,
   ⟨"data", .temporal, [.str "2021-1-01"]⟩,
   ⟨"faixa_etaria", .categorical, [.str "<18"]⟩,
   ⟨"faixa_salarial", .categorical, [.str "Até 1 SM"]⟩]

/-- `process_data` of `c6t`: decoding overwrote `sexo_desc` with
`map(sexo)`, and the unmapped `'3'` became NaN. -/
def c6t1 : Table :=
  [⟨"sexo", .categorical, [.str "3"]⟩,
   ⟨"sexo_desc", .categorical, [.missing]⟩,
   ⟨"grau_instrucao_desc", .categorical, [.str "g"]⟩,
   ⟨"tipo_movimentacao_desc", .categorical, [.str "m"]⟩,
   ⟨"data", .temporal, [.str "2021-1-01"]⟩,
   ⟨"faixa_etaria", .categorical, [.str "<18"]⟩,
   ⟨"faixa_salarial", .categorical, [.str "Até 1 SM"]⟩]

/-- The C6 witness input: like `c6t` but with the decodable code `'1'`. -/
def c6w : Table :=
  [⟨"sexo", .categorical, [.str "1"]⟩,
   ⟨"sexo_desc", .categorical, [.str "x"]⟩,
   ⟨"grau_instrucao_desc", .categorical, [.str "g"]⟩,
   ⟨"tipo_movimentacao_desc", .categorical, [.str "m"]⟩,
   ⟨"data", .temporal, [.str "2021-1-01"]⟩,
   ⟨"faixa_etaria", .categorical, [.str "<18"]⟩,
   ⟨"faixa_salarial", .categorical, [.str "Até 1 SM"]⟩]

/-- `process_data` of `c6w`, a fixed point of `process_data`. -/
def c6w1 : Table :=
  [⟨"sexo", .categorical, [.str "1"]⟩,
   ⟨"sexo_desc", .categorical, [.str "Masculino"]⟩,
   ⟨"grau_instrucao_desc", .categorical, [.str "g"]⟩,
   ⟨"tipo_movimentacao_desc", .categorical, [.str "m"]⟩,
   ⟨"data", .temporal, [.str "2021-1-01"]⟩,
   ⟨"faixa_etaria", .categorical, [.str "<18"]⟩,
   ⟨"faixa_salarial", .categorical, [.str "Até 1 SM"]⟩]

/-! ## Theorems -/

/-- C1 (counterexample).  On the categorical column `['b', 'a', NaN]` both
present values are tied with frequency 1; the claim's tie-break
(first-encountered, i.e. `'b'`) disagrees with the code, which fills with
`mode()[0] = 'a'` (pandas sorts the tied modes ascending). -/
theorem c1_counterexample :
    handleMissingValues [⟨"uf", .categorical, [.str "b", .str "a", .missing]⟩]
      = .ok [⟨"uf", .categorical, [.str "b", .str "a", .str "a"]⟩]
    ∧ modeFirstEncountered [.str "b", .str "a", .missing] = some (.str "b")
    ∧ Cell.str "a" ≠ Cell.str "b" :=
  ⟨by decide, by decide, by decide⟩

/-- A column returned by `getCol` is a member of the table. -/
lemma mem_of_getCol : ∀ {t : Table} {x : String} {c : Col}, getCol t x = some c → c ∈ t := by
  intro t
  induction t with
  | nil => intro x c h; simp [getCol] at h
  | cons d ds ih =>
    intro x c h
    by_cases hd : d.name = x
    · rw [getCol, if_pos hd] at h
      rw [← Option.some.inj h]
      exact List.mem_cons_self d ds
    · rw [getCol, if_neg hd] at h
      exact List.mem_cons_of_mem d (ih h)

/-- The `cellLe` order is reflexive. -/
lemma cellLe_refl (a : Cell) : cellLe a a = true := by
  cases a <;> simp [cellLe, strLt]

/-- The `cellLe` order is total. -/
lemma cellLe_total (a b : Cell) : cellLe a b = true ∨ cellLe b a = true := by
  cases a <;> cases b <;> simp [cellLe, strLt] <;> exact le_total _ _

/-- The `cellLe` order is transitive. -/
lemma cellLe_trans {a b c : Cell} (h1 : cellLe a b = true) (h2 : cellLe b c = true) :
    cellLe a c = true := by
  cases a <;> cases b <;> cases c <;> simp_all [cellLe, strLt] <;> exact le_trans h1 h2

/-- The minimum fold of `minCell` stays in the list (or at the seed). -/
lemma foldl_min_mem (as : List Cell) (a : Cell) :
    as.foldl (fun x y => if cellLe y x then y else x) a = a
    ∨ as.foldl (fun x y => if cellLe y x then y else x) a ∈ as := by
  induction as generalizing a with
  | nil => exact Or.inl rfl
  | cons b bs ih =>
    by_cases h : cellLe b a = true
    · rcases ih b with h1 | h1 <;> simp [List.foldl, h, h1]
    · rcases ih a with h1 | h1 <;> simp [List.foldl, h, h1]

/-- The minimum fold of `minCell` is below the seed and every element. -/
lemma foldl_min_le (as : List Cell) (a : Cell) :
    cellLe (as.foldl (fun x y => if cellLe y x then y else x) a) a = true
    ∧ ∀ x ∈ as, cellLe (as.foldl (fun x y => if cellLe y x then y else x) a) x = true := by
  induction as generalizing a with
  | nil => exact ⟨cellLe_refl a, by simp⟩
  | cons b bs ih =>
    by_cases h : cellLe b a = true
    · have ⟨ih1, ih2⟩ := ih b
      refine ⟨?_, ?_⟩
      · simpa [List.foldl, h] using cellLe_trans ih1 h
      · intro x hx
        rcases List.mem_cons.mp hx with rfl | hx
        · simpa [List.foldl, h] using ih1
        · simpa [List.foldl, h] using ih2 x hx
    · have ⟨ih1, ih2⟩ := ih a
      have hab : cellLe a b = true := (cellLe_total a b).resolve_right (by simpa using h)
      refine ⟨by simpa [List.foldl, h] using ih1, ?_⟩
      intro x hx
      rcases List.mem_cons.mp hx with rfl | hx
      · simpa [List.foldl, h] using cellLe_trans ih1 hab
      · simpa [List.foldl, h] using ih2 x hx

/-- `minCell` returns a member of the list. -/
lemma minCell_mem {l : List Cell} {m : Cell} (h : minCell l = some m) : m ∈ l := by
  cases l with
  | nil => simp [minCell] at h
  | cons a as =>
    simp only [minCell, Option.some.injEq] at h
    rcases foldl_min_mem as a with h1 | h1
    · rw [← h]; rw [h1]; exact List.mem_cons_self a as
    · rw [← h]; exact List.mem_cons_of_mem a h1

/-- `minCell` returns a lower bound of the list. -/
lemma minCell_le {l : List Cell} {m : Cell} (h : minCell l = some m) :
    ∀ x ∈ l, cellLe m x = true := by
  cases l with
  | nil => simp [minCell] at h
  | cons a as =>
    simp only [minCell, Option.some.injEq] at h
    intro x hx
    rcases List.mem_cons.mp hx with rfl | hx
    · rw [← h]; exact (foldl_min_le as x).1
    · rw [← h]; exact (foldl_min_le as a).2 x hx

/-- Every member of a list of naturals is below its `max` fold. -/
lemma le_foldr_max {x : Nat} {xs : List Nat} (h : x ∈ xs) : x ≤ xs.foldr max 0 := by
  induction xs with
  | nil => simp at h
  | cons y ys ih =>
    rcases List.mem_cons.mp h with rfl | h
    · exact le_max_left _ _
    · exact le_trans (ih h) (le_max_right _ _)

/-- Characterisation of `mode()[0]`: a present value of maximal frequency,
and the least (in pandas' ascending sort order) among the tied modes. -/
lemma pandasMode_spec {l : List Cell} {m : Cell} (h : pandasMode l = some m) :
    m ∈ presentCells l
    ∧ (∀ v ∈ presentCells l, (presentCells l).count v ≤ (presentCells l).count m)
    ∧ (∀ v ∈ presentCells l,
        (presentCells l).count v = (presentCells l).count m → cellLe m v = true) := by
  have hmem := minCell_mem h
  have hle := minCell_le h
  rcases List.mem_filter.mp hmem with ⟨huniq, hcount⟩
  have hcm : (presentCells l).count m
      = ((presentCells l).dedup.map (fun v => (presentCells l).count v)).foldr max 0 :=
    of_decide_eq_true hcount
  refine ⟨List.mem_dedup.mp huniq, ?_, ?_⟩
  · intro v hv
    rw [hcm]
    exact le_foldr_max (List.mem_map_of_mem _ (List.mem_dedup.mpr hv))
  · intro v hv hcv
    refine hle v (List.mem_filter.mpr ⟨List.mem_dedup.mpr hv, ?_⟩)
    rw [← hcm] at hcount ⊢
    exact decide_eq_true (hcv.trans (of_decide_eq_true hcount))

/-- An `ok` result of the structural `mapM` is the pointwise image of its
input. -/
lemma exceptMap_ok_forall {α β : Type} {f : α → Except String β} :
    ∀ {l : List α} {l' : List β}, exceptMap f l = .ok l' →
    List.Forall₂ (fun a b => f a = .ok b) l l' := by
  intro l
  induction l with
  | nil =>
    intro l' h
    simp only [exceptMap, Except.ok.injEq] at h
    rw [← h]
    exact List.Forall₂.nil
  | cons a as ih =>
    intro l' h
    simp only [exceptMap] at h
    cases hfa : f a with
    | error e => rw [hfa] at h; exact absurd h (by simp)
    | ok b =>
      rw [hfa] at h
      cases hrest : exceptMap f as with
      | error e => rw [hrest] at h; exact absurd h (by simp)
      | ok bs =>
        rw [hrest] at h
        simp only [Except.ok.injEq] at h
        rw [← h]
        exact List.Forall₂.cons hfa (ih hrest)

/-- What one imputation step does to a column, case by dtype. -/
lemma imputeCol_spec {c c' : Col} (h : imputeCol c = .ok c') :
    c'.name = c.name ∧ c'.kind = c.kind
    ∧ (c.cells.contains Cell.missing = false → c' = c)
    ∧ (c.kind = .numeric → c.cells.contains Cell.missing = true →
        ∀ m, median (presentNums c.cells) = some m →
          c'.cells = c.cells.map (fillCell (.num m)))
    ∧ (c.kind = .categorical → c.cells.contains Cell.missing = true →
        ∀ m, pandasMode c.cells = some m →
          c'.cells = c.cells.map (fillCell m)) := by
  cases c with
  | mk nm k cells =>
    cases k with
    | numeric =>
      simp only [imputeCol] at h
      by_cases hc : cells.contains Cell.missing = true
      · rw [if_pos hc] at h
        cases hm : median (presentNums cells) with
        | none =>
          rw [hm] at h
          simp only [Except.ok.injEq] at h
          subst h
          simp_all
        | some m =>
          rw [hm] at h
          simp only [Except.ok.injEq] at h
          subst h
          simp_all
      · rw [if_neg hc] at h
        simp only [Except.ok.injEq] at h
        subst h
        simp_all
    | categorical =>
      simp only [imputeCol] at h
      by_cases hc : cells.contains Cell.missing = true
      · rw [if_pos hc] at h
        cases hm : pandasMode cells with
        | none => rw [hm] at h; exact absurd h (by simp)
        | some m =>
          rw [hm] at h
          simp only [Except.ok.injEq] at h
          subst h
          simp_all
      · rw [if_neg hc] at h
        simp only [Except.ok.injEq] at h
        subst h
        simp_all
    | temporal =>
      simp only [imputeCol, Except.ok.injEq] at h
      subst h
      simp_all

/-- C1 (amended).  The imputation step replaces, column by column in
order, the missing entries of a numeric column by the median of its
present values, and those of a categorical column by its mode — where a
frequency tie is broken by the smallest value (pandas returns the tied
modes sorted ascending and `mode()[0]` takes the first), not by the
first-encountered value; columns without missing entries pass through
unchanged. -/
theorem c1_imputation_amended :
    (∀ (t a : Table), handleMissingValues t = .ok a →
      List.Forall₂ (fun c c' : Col =>
        c'.name = c.name ∧ c'.kind = c.kind
        ∧ (c.cells.contains Cell.missing = false → c' = c)
        ∧ (c.kind = .numeric → c.cells.contains Cell.missing = true →
            ∀ m, median (presentNums c.cells) = some m →
              c'.cells = c.cells.map (fillCell (.num m)))
        ∧ (c.kind = .categorical → c.cells.contains Cell.missing = true →
            ∀ m, pandasMode c.cells = some m →
              c'.cells = c.cells.map (fillCell m))) t a)
    ∧ (∀ (l : List Cell) (m : Cell), pandasMode l = some m →
        m ∈ presentCells l
        ∧ (∀ v ∈ presentCells l, (presentCells l).count v ≤ (presentCells l).count m)
        ∧ (∀ v ∈ presentCells l,
            (presentCells l).count v = (presentCells l).count m → cellLe m v = true)) := by
  constructor
  · intro t a h
    exact (exceptMap_ok_forall h).imp (fun {a b} hf => imputeCol_spec hf)
  · intro l m h
    exact pandasMode_spec h

/-- C1 witness: the mode characterisation applied to the counterexample
column, with its hypothesis discharged concretely. -/
theorem c1_witness :
    Cell.str "a" ∈ presentCells [Cell.str "b", Cell.str "a", Cell.missing]
    ∧ (∀ v ∈ presentCells [Cell.str "b", Cell.str "a", Cell.missing],
        (presentCells [Cell.str "b", Cell.str "a", Cell.missing]).count v
          ≤ (presentCells [Cell.str "b", Cell.str "a", Cell.missing]).count (Cell.str "a"))
    ∧ (∀ v ∈ presentCells [Cell.str "b", Cell.str "a", Cell.missing],
        (presentCells [Cell.str "b", Cell.str "a", Cell.missing]).count v
          = (presentCells [Cell.str "b", Cell.str "a", Cell.missing]).count (Cell.str "a") →
        cellLe (Cell.str "a") v = true) :=
  c1_imputation_amended.2 [Cell.str "b", Cell.str "a", Cell.missing] (Cell.str "a") (by decide)

/-- C2.  An all-missing numeric column is left missing and `process`
returns normally (`fillna` with a NaN median is a no-op), but an
all-missing categorical column makes `process` raise: `mode()` of an
all-NaN column is an empty series and `mode()[0]` is a `KeyError` —
contradicting the specified leave-missing behaviour. -/
theorem c2_all_missing_column :
    processData [⟨"idade", .numeric, [.missing, .missing]⟩]
      = .ok [⟨"idade", .numeric, [.missing, .missing]⟩,
             ⟨"faixa_etaria", .categorical, [.missing, .missing]⟩]
    ∧ processData [⟨"uf", .categorical, [.missing]⟩]
      = .error "KeyError: 0 (mode of an all-missing column is empty)" :=
  ⟨rfl, rfl⟩

/-- C8.  `process`, `aggregate_by_period` and `filter_data` degrade to
well-defined empty results on an empty table, but `get_summary_statistics`
raises: `df[numeric_cols].describe()` on a frame with no numeric columns
(in particular on the empty table) is a `ValueError`, contradicting the
claimed empty summary. -/
theorem c8_empty_table_summary :
    getSummaryStatistics ([] : Table)
      = .error "ValueError: Cannot describe a DataFrame without columns"
    ∧ processData ([] : Table) = .ok []
    ∧ aggregateByPeriod ([] : Table) ["ano", "mes"] ["salario"] = []
    ∧ filterData ([] : Table) [("uf", .pstr "SP")] = .ok []
    ∧ getSummaryStatistics [⟨"uf", .categorical, [.str "SP"]⟩]
      = .error "ValueError: Cannot describe a DataFrame without columns" :=
  ⟨rfl, rfl, by decide, rfl, rfl⟩

/-- C9 (counterexample).  With a metric column and no grouping column,
`create_bar_chart` hands the raw frame to `px.bar` (`chart_data =
df.copy()`): bucket `'a'` keeps its two rows with values 1 and 3, not the
claimed per-bucket mean 2. -/
theorem c9_counterexample :
    barChartData c9t "x" (some "v") none none = .ok ⟨c9t, "v"⟩
    ∧ meanGroupby c9t ["x"] "v"
      = [⟨"x", .categorical, [.str "a"]⟩, ⟨"v", .numeric, [.num 2]⟩]
    ∧ c9t ≠ [⟨"x", .categorical, [.str "a"]⟩, ⟨"v", .numeric, [.num 2]⟩] := by
  refine ⟨rfl, ?_, by decide⟩
  have h1 : meanGroupby c9t ["x"] "v"
      = [⟨"x", .categorical, [.str "a"]⟩,
         ⟨"v", .numeric, [statOf "mean" [.num 1, .num 3]]⟩] := rfl
  rw [h1]
  norm_num [statOf, presentNums, List.filterMap_cons, List.filterMap_nil,
    List.sum_cons, List.sum_nil]

/-- A bin test is false when the value lies left of the bin. -/
lemma binFalse_left {lo hi a : ℚ} (h : a < lo) :
    (decide (lo ≤ a) && decide (a < hi)) = false := by
  rw [decide_eq_false (not_le.mpr h), Bool.false_and]

/-- A bin test is false when the value lies right of the bin. -/
lemma binFalse_right {lo hi a : ℚ} (h : hi ≤ a) :
    (decide (lo ≤ a) && decide (a < hi)) = false := by
  rw [decide_eq_false (not_lt.mpr h), Bool.and_false]

/-- A bin test is true when the value lies inside the half-open bin. -/
lemma binTrue {lo hi a : ℚ} (h1 : lo ≤ a) (h2 : a < hi) :
    (decide (lo ≤ a) && decide (a < hi)) = true := by
  rw [decide_eq_true h1, decide_eq_true h2]; rfl

/-- C3.  The seven age bins of `pd.cut(..., right=False)` partition
`[0, 100)`: every age in range lies in exactly one left-closed bin, and
each boundary 18, 25, 35, 45, 55, 65 falls into the upper bracket.
Likewise the salary bins partition `[0, ∞)` — exactly one of the five
bounded bins or the unbounded `[10000, ∞)` bin holds — with the
boundaries 1100, 2200, 3300, 5000 in the upper bracket and every salary
`≥ 10000` labelled `'10+ SM'`. -/
theorem c3_bracket_partition :
    (∀ a : ℚ, 0 ≤ a → a < 100 →
      (ageBins.countP (fun b => decide (b.1 ≤ a) && decide (a < b.2.1))) = 1)
    ∧ cutCell ageBins (.num 18) = .str "18-24"
    ∧ cutCell ageBins (.num 25) = .str "25-34"
    ∧ cutCell ageBins (.num 35) = .str "35-44"
    ∧ cutCell ageBins (.num 45) = .str "45-54"
    ∧ cutCell ageBins (.num 55) = .str "55-64"
    ∧ cutCell ageBins (.num 65) = .str "65+"
    ∧ (∀ s : ℚ, 0 ≤ s →
      (salaryBins.countP (fun b => decide (b.1 ≤ s) && decide (s < b.2.1)))
        + (if 10000 ≤ s then 1 else 0) = 1)
    ∧ cutSalaryCell (.num 1100) = .str "1-2 SM"
    ∧ cutSalaryCell (.num 2200) = .str "2-3 SM"
    ∧ cutSalaryCell (.num 3300) = .str "3-5 SM"
    ∧ cutSalaryCell (.num 5000) = .str "5-10 SM"
    ∧ (∀ s : ℚ, 10000 ≤ s → cutSalaryCell (.num s) = .str "10+ SM") := by
  refine ⟨?_, by decide, by decide, by decide, by decide, by decide, by decide,
    ?_, by decide, by decide, by decide, by decide, ?_⟩
  · intro a h0 h100
    rcases lt_or_le a 18 with h | h18
    · simp [ageBins, List.countP_cons, binTrue h0 h,
        binFalse_left (show a < (18:ℚ) from h), binFalse_left (show a < (25:ℚ) by linarith),
        binFalse_left (show a < (35:ℚ) by linarith), binFalse_left (show a < (45:ℚ) by linarith),
        binFalse_left (show a < (55:ℚ) by linarith), binFalse_left (show a < (65:ℚ) by linarith)]
    · rcases lt_or_le a 25 with h | h25
      · simp [ageBins, List.countP_cons, binTrue h18 h,
          binFalse_right (show (18:ℚ) ≤ a from h18),
          binFalse_left (show a < (25:ℚ) from h), binFalse_left (show a < (35:ℚ) by linarith),
          binFalse_left (show a < (45:ℚ) by linarith), binFalse_left (show a < (55:ℚ) by linarith),
          binFalse_left (show a < (65:ℚ) by linarith)]
      · rcases lt_or_le a 35 with h | h35
        · simp [ageBins, List.countP_cons, binTrue h25 h,
            binFalse_right (show (18:ℚ) ≤ a by linarith),
            binFalse_right (show (25:ℚ) ≤ a from h25),
            binFalse_left (show a < (35:ℚ) from h), binFalse_left (show a < (45:ℚ) by linarith),
            binFalse_left (show a < (55:ℚ) by linarith), binFalse_left (show a < (65:ℚ) by linarith)]
        · rcases lt_or_le a 45 with h | h45
          · simp [ageBins, List.countP_cons, binTrue h35 h,
              binFalse_right (show (18:ℚ) ≤ a by linarith),
              binFalse_right (show (25:ℚ) ≤ a by linarith),
              binFalse_right (show (35:ℚ) ≤ a from h35),
              binFalse_left (show a < (45:ℚ) from h), binFalse_left (show a < (55:ℚ) by linarith),
              binFalse_left (show a < (65:ℚ) by linarith)]
          · rcases lt_or_le a 55 with h | h55
            · simp [ageBins, List.countP_cons, binTrue h45 h,
                binFalse_right (show (18:ℚ) ≤ a by linarith),
                binFalse_right (show (25:ℚ) ≤ a by linarith),
                binFalse_right (show (35:ℚ) ≤ a by linarith),
                binFalse_right (show (45:ℚ) ≤ a from h45),
                binFalse_left (show a < (55:ℚ) from h),
                binFalse_left (show a < (65:ℚ) by linarith)]
            · rcases lt_or_le a 65 with h | h65
              · simp [ageBins, List.countP_cons, binTrue h55 h,
                  binFalse_right (show (18:ℚ) ≤ a by linarith),
                  binFalse_right (show (25:ℚ) ≤ a by linarith),
                  binFalse_right (show (35:ℚ) ≤ a by linarith),
                  binFalse_right (show (45:ℚ) ≤ a by linarith),
                  binFalse_right (show (55:ℚ) ≤ a from h55),
                  binFalse_left (show a < (65:ℚ) by linarith)]
              · simp [ageBins, List.countP_cons, binTrue h65 h100,
                  binFalse_right (show (18:ℚ) ≤ a by linarith),
                  binFalse_right (show (25:ℚ) ≤ a by linarith),
                  binFalse_right (show (35:ℚ) ≤ a by linarith),
                  binFalse_right (show (45:ℚ) ≤ a by linarith),
                  binFalse_right (show (55:ℚ) ≤ a by linarith),
                  binFalse_right (show (65:ℚ) ≤ a from h65)]
  · intro s h0
    rcases lt_or_le s 1100 with h | h1100
    · rw [if_neg (not_le.mpr (by linarith))]
      simp [salaryBins, List.countP_cons, binTrue h0 h,
        binFalse_left (show s < (1100:ℚ) from h), binFalse_left (show s < (2200:ℚ) by linarith),
        binFalse_left (show s < (3300:ℚ) by linarith), binFalse_left (show s < (5000:ℚ) by linarith)]
    · rcases lt_or_le s 2200 with h | h2200
      · rw [if_neg (not_le.mpr (by linarith))]
        simp [salaryBins, List.countP_cons, binTrue h1100 h,
          binFalse_right (show (1100:ℚ) ≤ s from h1100),
          binFalse_left (show s < (2200:ℚ) from h), binFalse_left (show s < (3300:ℚ) by linarith),
          binFalse_left (show s < (5000:ℚ) by linarith)]
      · rcases lt_or_le s 3300 with h | h3300
        · rw [if_neg (not_le.mpr (by linarith))]
          simp [salaryBins, List.countP_cons, binTrue h2200 h,
            binFalse_right (show (1100:ℚ) ≤ s by linarith),
            binFalse_right (show (2200:ℚ) ≤ s from h2200),
            binFalse_left (show s < (3300:ℚ) from h),
            binFalse_left (show s < (5000:ℚ) by linarith)]
        · rcases lt_or_le s 5000 with h | h5000
          · rw [if_neg (not_le.mpr (by linarith))]
            simp [salaryBins, List.countP_cons, binTrue h3300 h,
              binFalse_right (show (1100:ℚ) ≤ s by linarith),
              binFalse_right (show (2200:ℚ) ≤ s by linarith),
              binFalse_right (show (3300:ℚ) ≤ s from h3300),
              binFalse_left (show s < (5000:ℚ) from h)]
          · rcases lt_or_le s 10000 with h | h10000
            · rw [if_neg (not_le.mpr h)]
              simp [salaryBins, List.countP_cons, binTrue h5000 h,
                binFalse_right (show (1100:ℚ) ≤ s by linarith),
                binFalse_right (show (2200:ℚ) ≤ s by linarith),
                binFalse_right (show (3300:ℚ) ≤ s by linarith),
                binFalse_right (show (5000:ℚ) ≤ s from h5000)]
            · rw [if_pos h10000]
              simp [salaryBins, List.countP_cons,
                binFalse_right (show (1100:ℚ) ≤ s by linarith),
                binFalse_right (show (2200:ℚ) ≤ s by linarith),
                binFalse_right (show (3300:ℚ) ≤ s by linarith),
                binFalse_right (show (5000:ℚ) ≤ s by linarith),
                binFalse_right (show (10000:ℚ) ≤ s from h10000)]
  · intro s h
    simp [cutSalaryCell, if_pos h]

/-- C3 witness: the partition theorem applied at age 30 and salary
12000. -/
theorem c3_witness :
    (ageBins.countP (fun b => decide (b.1 ≤ (30:ℚ)) && decide ((30:ℚ) < b.2.1))) = 1
    ∧ cutSalaryCell (.num 12000) = .str "10+ SM" :=
  ⟨c3_bracket_partition.1 30 (by norm_num) (by norm_num),
   c3_bracket_partition.2.2.2.2.2.2.2.2.2.2.2.2 12000 (by norm_num)⟩

/-- C4.  `aggregate_by_period` silently drops requested columns absent
from the table; with an empty surviving group-by or metric set it returns
the empty table; otherwise its columns are the surviving group columns
followed by the `{metric}_{statistic}` columns for the five statistics,
with one row per group; and on the rows `{(2021,1000),(2021,3000),(2022,500)}`
grouped by `ano` over `salario` it returns exactly the specified means,
medians, minima, maxima and counts. -/
theorem c4_aggregate :
    (∀ (t : Table) (g m : List String), aggregateByPeriod t g m
      = aggregateByPeriod t (g.filter (fun x => hasCol t x)) (m.filter (fun x => hasCol t x)))
    ∧ (∀ (t : Table) (g m : List String),
        (g.filter (fun x => hasCol t x)).isEmpty ∨ (m.filter (fun x => hasCol t x)).isEmpty →
        aggregateByPeriod t g m = [])
    ∧ (∀ (t : Table) (g m : List String),
        ¬ (g.filter (fun x => hasCol t x)).isEmpty →
        ¬ (m.filter (fun x => hasCol t x)).isEmpty →
        colNames (aggregateByPeriod t g m)
          = g.filter (fun x => hasCol t x)
            ++ (m.filter (fun x => hasCol t x)).flatMap
                (fun mc => statNames.map (fun s => mc ++ "_" ++ s)))
    ∧ (∀ (t : Table) (g m : List String), ∀ c ∈ aggregateByPeriod t g m,
        c.cells.length = (groupKeys t (g.filter (fun x => hasCol t x))).length)
    ∧ aggregateByPeriod c4t ["ano"] ["salario"]
      = [⟨"ano", .numeric, [.num 2021, .num 2022]⟩,
         ⟨"salario_mean", .numeric, [.num 2000, .num 500]⟩,
         ⟨"salario_median", .numeric, [.num 2000, .num 500]⟩,
         ⟨"salario_min", .numeric, [.num 1000, .num 500]⟩,
         ⟨"salario_max", .numeric, [.num 3000, .num 500]⟩,
         ⟨"salario_count", .numeric, [.num 2, .num 1]⟩] := by
  refine ⟨?_, ?_, ?_, ?_, ?_⟩
  · intro t g m
    simp [aggregateByPeriod, List.filter_filter]
  · intro t g m h
    rcases h with h | h <;> simp [aggregateByPeriod, h]
  · intro t g m hg hm
    simp only [aggregateByPeriod]
    rw [if_neg (by simp [hg, hm])]
    rw [colNames, List.map_append]
    congr 1
    · rw [groupKeyCols, List.map_map]
      exact List.enum_map_snd _
    · rw [List.map_flatMap]
      apply List.flatMap_congr
      intro a _
      rw [List.map_map]
      rfl
  · intro t g m c hc
    by_cases h : (g.filter (fun x => hasCol t x)).isEmpty ∨ (m.filter (fun x => hasCol t x)).isEmpty
    · rcases h with h | h <;> simp [aggregateByPeriod, h] at hc
    · simp only [aggregateByPeriod, if_neg h, groupKeyCols] at hc
      rcases List.mem_append.mp hc with h1 | h1
      · rcases List.mem_map.mp h1 with ⟨p, hp, rfl⟩
        simp
      · rcases List.mem_flatMap.mp h1 with ⟨mc, hmc, h2⟩
        rcases List.mem_map.mp h2 with ⟨s, hs, rfl⟩
        simp
  · have h1 : aggregateByPeriod c4t ["ano"] ["salario"]
        = [⟨"ano", .numeric, [.num 2021, .num 2022]⟩,
           ⟨"salario_mean", .numeric,
             [statOf "mean" [.num 1000, .num 3000], statOf "mean" [.num 500]]⟩,
           ⟨"salario_median", .numeric,
             [statOf "median" [.num 1000, .num 3000], statOf "median" [.num 500]]⟩,
           ⟨"salario_min", .numeric,
             [statOf "min" [.num 1000, .num 3000], statOf "min" [.num 500]]⟩,
           ⟨"salario_max", .numeric,
             [statOf "max" [.num 1000, .num 3000], statOf "max" [.num 500]]⟩,
           ⟨"salario_count", .numeric,
             [statOf "count" [.num 1000, .num 3000], statOf "count" [.num 500]]⟩] := rfl
    rw [h1]
    norm_num [statOf, presentNums, median, sortLe, insertLe, minQ, maxQ,
      List.filterMap_cons, List.filterMap_nil, List.sum_cons, List.sum_nil,
      List.foldl, List.length]

/-- C4 witness: the aggregation theorem applied to the concrete fixture,
with its non-emptiness hypotheses discharged there. -/
theorem c4_witness :
    colNames (aggregateByPeriod c4t ["ano"] ["salario"])
      = ["ano"].filter (fun x => hasCol c4t x)
        ++ (["salario"].filter (fun x => hasCol c4t x)).flatMap
            (fun mc => statNames.map (fun s => mc ++ "_" ++ s)) :=
  c4_aggregate.2.2.1 c4t ["ano"] ["salario"] (by decide) (by decide)

/-- C10 (counterexample).  A two-element tuple of strings does reach the
`==` branch, but pandas compares a tuple elementwise as an array-like: on
a three-row column it raises `ValueError: Lengths must match to compare`
instead of comparing the whole tuple with each cell (which would select
zero rows), while the two-element list of the same strings filters by
membership. -/
theorem c10_counterexample :
    filterData [⟨"uf", .categorical, [.str "SP", .str "RJ", .str "MG"]⟩]
      [("uf", .ptuple [.pstr "SP", .pstr "RJ"])]
      = .error "ValueError: Lengths must match to compare"
    ∧ filterData [⟨"uf", .categorical, [.str "SP", .str "RJ", .str "MG"]⟩]
      [("uf", .plist [.pstr "SP", .pstr "RJ"])]
      = .ok [⟨"uf", .categorical, [.str "SP", .str "RJ"]⟩] :=
  ⟨rfl, rfl⟩

/-- C9 (amended).  Bar-chart data preparation: with no metric column the
Y value is the row count per X bucket (per (X, group) bucket when a
present grouping column is given; an absent grouping column falls back to
X alone); with a metric column and a present grouping column it is the
mean of the metric per (X, group) bucket; but with a metric column and no
grouping column the frame is passed through unaggregated (`df.copy()`),
so no per-bucket mean is computed; an absent metric column yields the
placeholder figure. -/
theorem c9_bar_chart_amended :
    ∀ (t : Table) (x : String), hasCol t x →
    (barChartData t x none none none = .ok ⟨sizeGroupby t [x], "count"⟩)
    ∧ (∀ g, hasCol t g →
        barChartData t x none (some g) none = .ok ⟨sizeGroupby t [x, g], "count"⟩)
    ∧ (∀ g, ¬ hasCol t g →
        barChartData t x none (some g) none = .ok ⟨sizeGroupby t [x], "count"⟩)
    ∧ (∀ y, hasCol t y → ∀ g, hasCol t g →
        barChartData t x (some y) (some g) none = .ok ⟨meanGroupby t [x, g] y, y⟩)
    ∧ (∀ y, hasCol t y → barChartData t x (some y) none none = .ok ⟨t, y⟩)
    ∧ (∀ y, ¬ hasCol t y → ∀ g,
        barChartData t x (some y) g none
          = .error ("Coluna " ++ y ++ " não disponível para gráfico de barras")) := by
  intro t x hx
  refine ⟨?_, ?_, ?_, ?_, ?_, ?_⟩
  · simp [barChartData, hx]
  · intro g hg; simp [barChartData, hx, hg]
  · intro g hg; simp [barChartData, hx, hg]
  · intro y hy g hg; simp [barChartData, hx, hy, hg]
  · intro y hy; simp [barChartData, hx, hy]
  · intro y hy g; cases g <;> simp [barChartData, hx, hy]

/-- C9 witness: the counting branch of the amended theorem at the
two-row fixture. -/
theorem c9_witness :
    barChartData c9t "x" none none none = .ok ⟨sizeGroupby c9t ["x"], "count"⟩ :=
  (c9_bar_chart_amended c9t "x" (by decide)).1

/-- C10 (amended).  The range branch indeed requires a two-element
list/tuple of numerics, and a two-element list of non-numeric values is
membership; but a two-element tuple of strings, though it reaches the
`==` branch, is compared elementwise as an array-like: pandas raises
`ValueError` unless the column has exactly two rows, in which case the
comparison is positional — never "the whole tuple against each cell". -/
theorem c10_tuple_vs_list_amended :
    ∀ (cells : List Cell) (a b : String) (c1 c2 : Cell),
    isRangePair (.ptuple [.pstr a, .pstr b]) = false
    ∧ (cells.length ≠ 2 →
        filterData [⟨"uf", .categorical, cells⟩] [("uf", .ptuple [.pstr a, .pstr b])]
          = .error "ValueError: Lengths must match to compare")
    ∧ filterData [⟨"uf", .categorical, [c1, c2]⟩] [("uf", .ptuple [.pstr a, .pstr b])]
        = .ok [⟨"uf", .categorical,
            selectRows [c1, c2] [cellEqPy c1 (.pstr a), cellEqPy c2 (.pstr b)]⟩]
    ∧ filterData [⟨"uf", .categorical, cells⟩] [("uf", .plist [.pstr a, .pstr b])]
        = .ok [⟨"uf", .categorical,
            selectRows cells (cells.map (fun c => cellEqPy c (.pstr a) || cellEqPy c (.pstr b)))⟩] := by
  intro cells a b c1 c2
  refine ⟨rfl, ?_, ?_, ?_⟩
  · intro h
    have h2 : ¬ (2 = cells.length) := fun hc => h hc.symm
    simp [filterData, filterOne, maskOf, getCol, List.find?, isRangePair, PyVal.isNumeric, eqMask, h2]
  · rfl
  · simp [filterData, filterOne, maskOf, getCol, List.find?, isRangePair, PyVal.isNumeric,
      isinMask, applyMask, List.any]

/-- C10 witness: the amended theorem applied to a three-row column, its
length hypothesis discharged there. -/
theorem c10_witness :
    filterData [⟨"uf", .categorical, [.str "SP", .str "RJ", .str "MG"]⟩]
      [("uf", .ptuple [.pstr "SP", .pstr "RJ"])]
      = .error "ValueError: Lengths must match to compare" :=
  (c10_tuple_vs_list_amended [.str "SP", .str "RJ", .str "MG"] "SP" "RJ"
    .missing .missing).2.1 (by decide)

lemma selectRows_nil {α : Type} (m : List Bool) : selectRows ([] : List α) m = [] := rfl

lemma selectRows_nil2 {α : Type} (d : List α) : selectRows d [] = [] := by
  simp [selectRows]

lemma selectRows_cons {α : Type} (a : α) (d : List α) (b : Bool) (m : List Bool) :
    selectRows (a :: d) (b :: m) = if b then a :: selectRows d m else selectRows d m := by
  cases b <;> simp [selectRows]

lemma selectRows_map {α β : Type} (f : α → β) :
    ∀ (d : List α) (m : List Bool), selectRows (d.map f) m = (selectRows d m).map f := by
  intro d
  induction d with
  | nil => intro m; simp [selectRows_nil]
  | cons a as ih =>
    intro m
    cases m with
    | nil => simp [selectRows_nil2]
    | cons b bs =>
      simp only [List.map_cons, selectRows_cons]
      cases b <;> simp [ih]

lemma selectRows_selectRows {α : Type} :
    ∀ (d : List α) (m1 m2 : List Bool),
    selectRows (selectRows d m1) (selectRows m2 m1)
      = selectRows d (List.zipWith (· && ·) m1 m2) := by
  intro d
  induction d with
  | nil => intro m1 m2; simp [selectRows_nil]
  | cons a as ih =>
    intro m1 m2
    cases m1 with
    | nil => simp [selectRows_nil2]
    | cons b1 bs1 =>
      cases m2 with
      | nil => simp [selectRows_nil, selectRows_nil2]
      | cons b2 bs2 =>
        cases b1 <;> cases b2 <;> simp [selectRows_cons, ih]

lemma selectRows_replicate_true {α : Type} : ∀ (d : List α),
    selectRows d (List.replicate d.length true) = d := by
  intro d
  induction d with
  | nil => rfl
  | cons a as ih => simp [List.replicate, selectRows_cons, ih]

lemma selectRows_zipWith : ∀ (p q m : List Bool),
    selectRows (List.zipWith (· && ·) p q) m
      = List.zipWith (· && ·) (selectRows p m) (selectRows q m) := by
  intro p
  induction p with
  | nil => intro q m; simp [selectRows_nil]
  | cons a as ih =>
    intro q m
    cases q with
    | nil => simp [selectRows_nil]
    | cons b bs =>
      cases m with
      | nil => simp [selectRows_nil2]
      | cons c cs =>
        cases c <;> simp [selectRows_cons, ih]

lemma mem_selectRows {α : Type} {x : α} : ∀ {d : List α} {m : List Bool},
    x ∈ selectRows d m → x ∈ d := by
  intro d
  induction d with
  | nil => intro m h; simp [selectRows_nil] at h
  | cons a as ih =>
    intro m h
    cases m with
    | nil => simp [selectRows_nil2] at h
    | cons b bs =>
      rw [selectRows_cons] at h
      cases b with
      | true =>
        simp only [if_true] at h
        rcases List.mem_cons.mp h with rfl | h
        · exact List.mem_cons_self _ _
        · exact List.mem_cons_of_mem _ (ih h)
      | false =>
        simp only [if_neg Bool.false_ne_true] at h
        exact List.mem_cons_of_mem _ (ih h)

lemma selectRows_length_eq {α β : Type} : ∀ (d1 : List α) (d2 : List β) (m : List Bool),
    d1.length = d2.length → (selectRows d1 m).length = (selectRows d2 m).length := by
  intro d1
  induction d1 with
  | nil =>
    intro d2 m h
    cases d2 with
    | nil => rfl
    | cons b bs => simp at h
  | cons a as ih =>
    intro d2 m h
    cases d2 with
    | nil => simp at h
    | cons b bs =>
      cases m with
      | nil => simp [selectRows_nil2]
      | cons c cs =>
        simp only [List.length_cons, Nat.succ.injEq] at h
        cases c <;> simp [selectRows_cons, ih bs cs h]

lemma selectRows_replicate {α : Type} (a : α) (n : Nat) (m : List Bool) :
    selectRows (List.replicate n a) m
      = List.replicate (selectRows (List.replicate n a) m).length a := by
  have : ∀ b ∈ selectRows (List.replicate n a) m, b = a := by
    intro b hb
    exact List.eq_of_mem_replicate (mem_selectRows hb)
  exact List.eq_replicate_length.mpr this

lemma map_self_of_eq {α : Type} {l : List α} {f : α → α} (h : ∀ c ∈ l, f c = c) :
    l.map f = l := by
  induction l with
  | nil => rfl
  | cons a as ih =>
    rw [List.map_cons, h a (List.mem_cons_self a as),
      ih (fun c hc => h c (List.mem_cons_of_mem _ hc))]

lemma getCol_applyMask (t : Table) (m : List Bool) (x : String) :
    getCol (applyMask t m) x
      = (getCol t x).map (fun c => { c with cells := selectRows c.cells m }) := by
  induction t with
  | nil => rfl
  | cons c cs ih =>
    by_cases h : c.name = x
    · simp [applyMask, getCol, h]
    · simpa [applyMask, getCol, h] using ih

lemma wf_applyMask {t : Table} (hw : Wf t) (m : List Bool) : Wf (applyMask t m) := by
  intro c hc
  cases t with
  | nil => simp [applyMask] at hc
  | cons c0 cs =>
    rcases List.mem_map.mp hc with ⟨d, hd, rfl⟩
    have hlen : d.cells.length = c0.cells.length := by
      rw [hw d hd]; rfl
    have hnr : numRows (applyMask (c0 :: cs) m) = (selectRows c0.cells m).length := by
      simp [applyMask, numRows]
    rw [hnr]
    exact selectRows_length_eq d.cells c0.cells m hlen

lemma applyMask_replicate_true {t : Table} (hw : Wf t) :
    applyMask t (List.replicate (numRows t) true) = t := by
  apply map_self_of_eq
  intro c hc
  have h := hw c hc
  calc ({ c with cells := selectRows c.cells (List.replicate (numRows t) true) } : Col)
      = { c with cells := selectRows c.cells (List.replicate c.cells.length true) } := by
        rw [h]
    _ = c := by rw [selectRows_replicate_true]

lemma predMask_length {t : Table} (hw : Wf t) (p : String × PyVal) :
    (predMask t p).length = numRows t := by
  unfold predMask
  cases hg : getCol t p.1 with
  | none => simp
  | some c =>
    simp only [List.length_map]
    exact hw c (mem_of_getCol hg)

lemma predMask_applyMask {t : Table} (hw : Wf t) (m : List Bool) (p : String × PyVal) :
    predMask (applyMask t m) p = selectRows (predMask t p) m := by
  cases hg : getCol t p.1 with
  | none =>
    have hg2 : getCol (applyMask t m) p.1 = none := by
      rw [getCol_applyMask, hg]; rfl
    unfold predMask
    rw [hg, hg2]
    cases t with
    | nil => simp [applyMask, numRows, selectRows_nil]
    | cons c0 cs =>
      have h0 : c0.cells.length = numRows (c0 :: cs) := hw c0 (List.mem_cons_self c0 cs)
      have hnr : numRows (applyMask (c0 :: cs) m) = (selectRows c0.cells m).length := by
        simp [applyMask, numRows]
      rw [hnr, selectRows_replicate true]
      rw [selectRows_length_eq (List.replicate (numRows (c0 :: cs)) true) c0.cells m
        (by simp [h0])]
  | some c =>
    have hg2 : getCol (applyMask t m) p.1
        = some { c with cells := selectRows c.cells m } := by
      rw [getCol_applyMask, hg]; rfl
    unfold predMask
    rw [hg, hg2]
    exact (selectRows_map _ c.cells m).symm

lemma conjMask_applyMask {t : Table} (hw : Wf t) (m : List Bool)
    (fs : List (String × PyVal)) :
    conjMask (applyMask t m) fs = selectRows (conjMask t fs) m := by
  induction fs with
  | nil =>
    show List.replicate (numRows (applyMask t m)) true
      = selectRows (List.replicate (numRows t) true) m
    cases t with
    | nil => simp [applyMask, numRows, selectRows_nil]
    | cons c0 cs =>
      have h0 : c0.cells.length = numRows (c0 :: cs) := hw c0 (List.mem_cons_self c0 cs)
      have hnr : numRows (applyMask (c0 :: cs) m) = (selectRows c0.cells m).length := by
        simp [applyMask, numRows]
      rw [hnr, selectRows_replicate true]
      rw [selectRows_length_eq (List.replicate (numRows (c0 :: cs)) true) c0.cells m
        (by simp [h0])]
  | cons p rest ih =>
    show List.zipWith (· && ·) (predMask (applyMask t m) p) (conjMask (applyMask t m) rest)
      = selectRows (List.zipWith (· && ·) (predMask t p) (conjMask t rest)) m
    rw [predMask_applyMask hw, ih, selectRows_zipWith]

lemma applyMask_applyMask (t : Table) (m1 m2 : List Bool) :
    applyMask (applyMask t m1) (selectRows m2 m1)
      = applyMask t (List.zipWith (· && ·) m1 m2) := by
  unfold applyMask
  rw [List.map_map]
  apply List.map_congr_left
  intro c _
  show ({ c with cells := selectRows (selectRows c.cells m1) (selectRows m2 m1) } : Col) = _
  rw [selectRows_selectRows]

lemma forall2_ok_eq_map {α β : Type} {f : α → Except String β} {g : α → β}
    (hg : ∀ a b, f a = .ok b → b = g a) :
    ∀ {l : List α} {m : List β}, exceptMap f l = .ok m → m = l.map g := by
  intro l m h
  have hf := exceptMap_ok_forall h
  clear h
  induction hf with
  | nil => rfl
  | cons ha _ ih => simp [List.map_cons, hg _ _ ha, ih]

lemma isRangePair_bounds {v : PyVal} (hr : isRangePair v = true) :
    ∃ lo hi, rangeBounds v = some (lo, hi) := by
  cases v with
  | pnum q => simp [isRangePair] at hr
  | pstr s => simp [isRangePair] at hr
  | plist l =>
    match l with
    | [] => simp [isRangePair] at hr
    | [a] => simp [isRangePair] at hr
    | [a, b] =>
      cases a <;> cases b <;> simp_all [isRangePair, PyVal.isNumeric, rangeBounds]
    | a :: b :: c :: rest => simp [isRangePair] at hr
  | ptuple l =>
    match l with
    | [] => simp [isRangePair] at hr
    | [a] => simp [isRangePair] at hr
    | [a, b] =>
      cases a <;> cases b <;> simp_all [isRangePair, PyVal.isNumeric, rangeBounds]
    | a :: b :: c :: rest => simp [isRangePair] at hr

lemma maskOf_ok_eq {c : Col} {v : PyVal} {m : List Bool}
    (hv : eqBranchTuple v = false) (h : maskOf c v = .ok m) :
    m = c.cells.map (fun cl => cellPass cl v) := by
  unfold maskOf at h
  by_cases hr : isRangePair v = true
  · rcases isRangePair_bounds hr with ⟨lo, hi, hb⟩
    rw [if_pos hr, hb] at h
    have hm : m = c.cells.map (fun cl => match cl with
        | Cell.num q => decide (lo ≤ q) && decide (q ≤ hi)
        | _ => false) := by
      refine forall2_ok_eq_map ?_ h
      intro a b hab
      cases a with
      | num q => simpa using hab.symm
      | str s => simp at hab
      | missing => simpa using hab.symm
    rw [hm]
    apply List.map_congr_left
    intro cl _
    unfold cellPass
    rw [if_pos hr, hb]
    cases cl <;> rfl
  · rw [if_neg hr] at h
    cases v with
    | plist l =>
      simp only [Except.ok.injEq] at h
      subst h
      unfold isinMask
      apply List.map_congr_left
      intro cl _
      unfold cellPass
      rw [if_neg hr]
    | ptuple l => simp [eqBranchTuple, hr] at hv
    | pnum q =>
      simp only [eqMask, Except.ok.injEq] at h
      subst h
      apply List.map_congr_left
      intro cl _
      unfold cellPass
      rw [if_neg hr]
    | pstr s =>
      simp only [eqMask, Except.ok.injEq] at h
      subst h
      apply List.map_congr_left
      intro cl _
      unfold cellPass
      rw [if_neg hr]

lemma filterOne_ok {t : Table} {column : String} {v : PyVal} {t1 : Table}
    (hw : Wf t) (hv : eqBranchTuple v = false)
    (h : filterOne t column v = .ok t1) :
    t1 = applyMask t (predMask t (column, v)) := by
  unfold filterOne at h
  cases hg : getCol t column with
  | none =>
    simp only [hg, Except.ok.injEq] at h
    subst h
    unfold predMask
    rw [hg]
    exact (applyMask_replicate_true hw).symm
  | some c =>
    simp only [hg] at h
    cases hmk : maskOf c v with
    | error e => rw [hmk] at h; exact absurd h (by simp)
    | ok m =>
      rw [hmk] at h
      simp only [Except.ok.injEq] at h
      subst h
      have hp : predMask t (column, v) = c.cells.map (fun cl => cellPass cl v) := by
        simp only [predMask, hg]
      rw [hp, ← maskOf_ok_eq hv hmk]

/-- C5.  Whenever `filter_data` returns, its result is exactly the rows
satisfying the conjunction (logical AND) of all the predicate entries —
closed numeric ranges, list membership, scalar equality — with entries
naming unknown columns ignored; sequential narrowing therefore agrees
with the simultaneous AND.  (Tuples reaching the equality branch are
excluded: their pandas semantics is positional, see C10.) -/
theorem c5_filter_conjunction :
    ∀ (fs : List (String × PyVal)) (t t' : Table),
    Wf t → (∀ p ∈ fs, eqBranchTuple p.2 = false) →
    filterData t fs = .ok t' →
    t' = applyMask t (conjMask t fs) := by
  intro fs
  induction fs with
  | nil =>
    intro t t' hw _ h
    simp only [filterData, Except.ok.injEq] at h
    subst h
    exact (applyMask_replicate_true hw).symm
  | cons p rest ih =>
    intro t t' hw hfs h
    cases p with
    | mk column v =>
      simp only [filterData] at h
      cases h1 : filterOne t column v with
      | error e => rw [h1] at h; exact absurd h (by simp)
      | ok t1 =>
        rw [h1] at h
        have hv : eqBranchTuple v = false := hfs (column, v) (List.mem_cons_self _ _)
        have ht1 : t1 = applyMask t (predMask t (column, v)) := filterOne_ok hw hv h1
        have hw1 : Wf t1 := by rw [ht1]; exact wf_applyMask hw _
        have hrec := ih t1 t' hw1 (fun q hq => hfs q (List.mem_cons_of_mem _ hq)) h
        rw [hrec, ht1, conjMask_applyMask hw, applyMask_applyMask]
        rfl

/-- C5 witness: the conjunction theorem applied to the specification's
fixture `{salario: [1000, 2000], uf: ['SP', 'RJ']}` on a four-row table,
all three hypotheses discharged concretely. -/
theorem c5_witness :
    [⟨"salario", .numeric, [.num 1500, .num 1200]⟩,
     ⟨"uf", .categorical, [.str "SP", .str "RJ"]⟩]
      = applyMask c5t (conjMask c5t c5fs) :=
  c5_filter_conjunction c5fs c5t
    [⟨"salario", .numeric, [.num 1500, .num 1200]⟩,
     ⟨"uf", .categorical, [.str "SP", .str "RJ"]⟩]
    (by unfold Wf; decide) (by decide) (by decide)


/-- C5 (counterexample).  As literally stated — for every predicate
mapping — the claim fails: a two-element tuple of strings does not
"denote exact equality" row-wise (it would select zero rows here) but
makes pandas raise a length-mismatch `ValueError`, and a numeric range
predicate over a string column raises a `TypeError` instead of selecting
rows; in both cases `filter_data` returns no table at all. -/
theorem c5_counterexample :
    filterData [⟨"uf", .categorical, [.str "SP"]⟩]
      [("uf", .ptuple [.pstr "A", .pstr "B"])]
      = .error "ValueError: Lengths must match to compare"
    ∧ filterData [⟨"uf", .categorical, [.str "SP"]⟩]
      [("uf", .plist [.pnum 1, .pnum 2])]
      = .error "TypeError: '>=' not supported between str and number" :=
  ⟨rfl, rfl⟩

lemma hasCol_eq_isSome (t : Table) (x : String) : hasCol t x = (getCol t x).isSome := by
  induction t with
  | nil => rfl
  | cons c cs ih =>
    by_cases h : c.name = x
    · simp [hasCol, getCol, h]
    · simp [hasCol, getCol, h] at ih ⊢
      exact ih

lemma getCol_overwrite_ne (t : Table) (c : Col) (x : String) (hx : ¬ x = c.name) :
    getCol (t.map (fun d => if d.name = c.name then c else d)) x = getCol t x := by
  induction t with
  | nil => rfl
  | cons d ds ih =>
    by_cases hd : d.name = c.name
    · have h1 : ¬ (c.name = x) := fun hc => hx hc.symm
      have h2 : ¬ (d.name = x) := by rw [hd]; exact h1
      simp only [List.map_cons, if_pos hd, getCol, h1, h2, if_neg, if_false]
      exact ih
    · simp only [List.map_cons, if_neg hd, getCol]
      by_cases hdx : d.name = x
      · rw [if_pos hdx, if_pos hdx]
      · rw [if_neg hdx, if_neg hdx]
        exact ih

lemma getCol_overwrite_eq (t : Table) (c : Col) (hh : hasCol t c.name = true) :
    getCol (t.map (fun d => if d.name = c.name then c else d)) c.name = some c := by
  induction t with
  | nil => simp [hasCol] at hh
  | cons d ds ih =>
    by_cases hd : d.name = c.name
    · simp [List.map_cons, if_pos hd, getCol]
    · simp only [List.map_cons, if_neg hd, getCol, if_neg hd]
      exact ih (by simpa [hasCol, hd] using hh)

lemma getCol_append_of_none {t1 : Table} {x : String} (t2 : Table)
    (h : getCol t1 x = none) : getCol (t1 ++ t2) x = getCol t2 x := by
  induction t1 with
  | nil => rfl
  | cons d ds ih =>
    by_cases hd : d.name = x
    · rw [getCol, if_pos hd] at h; exact absurd h (by simp)
    · rw [getCol, if_neg hd] at h
      simp only [List.cons_append, getCol, if_neg hd]
      exact ih h

lemma getCol_append_of_some {t1 : Table} {x : String} {c : Col} (t2 : Table)
    (h : getCol t1 x = some c) : getCol (t1 ++ t2) x = some c := by
  induction t1 with
  | nil => simp [getCol] at h
  | cons d ds ih =>
    by_cases hd : d.name = x
    · rw [getCol, if_pos hd] at h
      simp only [List.cons_append, getCol, if_pos hd]
      exact h
    · rw [getCol, if_neg hd] at h
      simp only [List.cons_append, getCol, if_neg hd]
      exact ih h

lemma getCol_setCol (t : Table) (c : Col) (x : String) :
    getCol (setCol t c) x = if x = c.name then some c else getCol t x := by
  unfold setCol
  by_cases hh : hasCol t c.name = true
  · rw [if_pos hh]
    by_cases hx : x = c.name
    · rw [if_pos hx, hx]
      exact getCol_overwrite_eq t c hh
    · rw [if_neg hx]
      exact getCol_overwrite_ne t c x hx
  · rw [if_neg hh]
    by_cases hx : x = c.name
    · have hnone : getCol t x = none := by
        rw [hx]
        rw [hasCol_eq_isSome] at hh
        cases hg : getCol t c.name
        · rfl
        · rw [hg] at hh; simp at hh
      rw [if_pos hx, getCol_append_of_none _ hnone]
      show (if c.name = x then some c else getCol [] x) = some c
      rw [if_pos hx.symm]
    · rw [if_neg hx]
      have hcx : ¬ (c.name = x) := fun hc => hx hc.symm
      cases hg : getCol t x with
      | none =>
        rw [getCol_append_of_none _ hg]
        show (if c.name = x then some c else getCol [] x) = none
        rw [if_neg hcx]
        rfl
      | some d => exact getCol_append_of_some _ hg

lemma hasCol_setCol (t : Table) (c : Col) (x : String) :
    hasCol (setCol t c) x = ((x = c.name : Bool) || hasCol t x) := by
  rw [hasCol_eq_isSome, getCol_setCol, hasCol_eq_isSome]
  by_cases hx : x = c.name
  · simp [hx]
  · simp [hx]

lemma mem_setCol {d : Col} {t : Table} {c : Col} (h : d ∈ setCol t c) :
    d = c ∨ d ∈ t := by
  unfold setCol at h
  by_cases hh : hasCol t c.name = true
  · rw [if_pos hh] at h
    rcases List.mem_map.mp h with ⟨e, he, hfe⟩
    by_cases hd : e.name = c.name
    · rw [if_pos hd] at hfe; exact Or.inl hfe.symm
    · rw [if_neg hd] at hfe; exact Or.inr (hfe ▸ he)
  · rw [if_neg hh] at h
    rcases List.mem_append.mp h with h1 | h1
    · exact Or.inr h1
    · exact Or.inl (by simpa using h1)

lemma mem_setCol_name {d : Col} {t : Table} {c : Col} (h : d ∈ setCol t c)
    (hn : d.name = c.name) : d = c := by
  unfold setCol at h
  by_cases hh : hasCol t c.name = true
  · rw [if_pos hh] at h
    rcases List.mem_map.mp h with ⟨e, he, hfe⟩
    by_cases hd : e.name = c.name
    · rw [if_pos hd] at hfe; exact hfe.symm
    · rw [if_neg hd] at hfe; rw [← hfe] at hn; exact absurd hn hd
  · rw [if_neg hh] at h
    rcases List.mem_append.mp h with h1 | h1
    · exfalso
      have : hasCol t c.name = true := by
        rw [hasCol]
        exact List.any_eq_true.mpr ⟨d, h1, decide_eq_true hn⟩
      exact hh this
    · simpa using h1

lemma setCol_self {t : Table} {c : Col} (hh : hasCol t c.name = true)
    (hall : ∀ d ∈ t, d.name = c.name → d = c) : setCol t c = t := by
  unfold setCol
  rw [if_pos hh]
  apply map_self_of_eq
  intro d hd
  by_cases hdn : d.name = c.name
  · rw [if_pos hdn]; exact (hall d hd hdn).symm
  · rw [if_neg hdn]


lemma getCol_mapStep_ne {t : Table} {src tgt : String} {k : ColKind} {f : Cell → Cell}
    {x : String} (hx : ¬ x = tgt) :
    getCol (mapStep t src tgt k f) x = getCol t x := by
  unfold mapStep
  cases hg : getCol t src with
  | none => rfl
  | some c =>
    rw [getCol_setCol]
    exact if_neg hx

lemma hasCol_mapStep_ne {t : Table} {src tgt : String} {k : ColKind} {f : Cell → Cell}
    {x : String} (hx : ¬ x = tgt) :
    hasCol (mapStep t src tgt k f) x = hasCol t x := by
  rw [hasCol_eq_isSome, getCol_mapStep_ne hx, hasCol_eq_isSome]

lemma mem_mapStep {d : Col} {t : Table} {src tgt : String} {k : ColKind} {f : Cell → Cell}
    (h : d ∈ mapStep t src tgt k f) : d ∈ t ∨ d.name = tgt := by
  unfold mapStep at h
  cases hg : getCol t src with
  | none => rw [hg] at h; exact Or.inl h
  | some c =>
    rw [hg] at h
    rcases mem_setCol h with h1 | h1
    · exact Or.inr (by rw [h1])
    · exact Or.inl h1

lemma mem_mapStep_name {t : Table} {src tgt : String} {k : ColKind} {f : Cell → Cell}
    {c : Col} (hg : getCol t src = some c) :
    ∀ d ∈ mapStep t src tgt k f, d.name = tgt → d = ⟨tgt, k, c.cells.map f⟩ := by
  unfold mapStep
  rw [hg]
  intro d hd hn
  exact mem_setCol_name hd hn

lemma mapStep_pres_name {t : Table} {src tgt : String} {k : ColKind} {f : Cell → Cell}
    {n : String} {c0 : Col} (hn : ¬ n = tgt)
    (hall : ∀ d ∈ t, d.name = n → d = c0) :
    ∀ d ∈ mapStep t src tgt k f, d.name = n → d = c0 := by
  intro d hd hdn
  rcases mem_mapStep hd with h1 | h1
  · exact hall d h1 hdn
  · exact absurd (hdn.symm.trans h1) hn

lemma deriveDate_cases {t t' : Table} (h : deriveDate t = .ok t') :
    (t' = t ∧ (getCol t "ano" = none ∨ getCol t "mes" = none))
    ∨ ∃ ca cm d, getCol t "ano" = some ca ∧ getCol t "mes" = some cm
        ∧ exceptMap (fun p => makeDateCell p.1 p.2) (ca.cells.zip cm.cells) = .ok d
        ∧ t' = setCol t ⟨"data", .temporal, d⟩ := by
  cases hca : getCol t "ano" with
  | none =>
    simp only [deriveDate, hca, Except.ok.injEq] at h
    exact Or.inl ⟨h.symm, Or.inl rfl⟩
  | some ca =>
    cases hcm : getCol t "mes" with
    | none =>
      simp only [deriveDate, hca, hcm, Except.ok.injEq] at h
      exact Or.inl ⟨h.symm, Or.inr rfl⟩
    | some cm =>
      cases hmk : exceptMap (fun p => makeDateCell p.1 p.2) (ca.cells.zip cm.cells) with
      | error e =>
        simp only [deriveDate, hca, hcm, hmk] at h
        exact Except.noConfusion h
      | ok d =>
        simp only [deriveDate, hca, hcm, hmk, Except.ok.injEq] at h
        exact Or.inr ⟨ca, cm, d, rfl, rfl, hmk, h.symm⟩

lemma getCol_deriveDate_ne {t t' : Table} {x : String} (h : deriveDate t = .ok t')
    (hx : ¬ x = "data") : getCol t' x = getCol t x := by
  rcases deriveDate_cases h with ⟨rfl, _⟩ | ⟨ca, cm, d, _, _, _, rfl⟩
  · rfl
  · rw [getCol_setCol]
    exact if_neg hx

lemma mem_deriveDate {d : Col} {t t' : Table} (h : deriveDate t = .ok t') (hd : d ∈ t') :
    d ∈ t ∨ d.name = "data" := by
  rcases deriveDate_cases h with ⟨rfl, _⟩ | ⟨ca, cm, dd, _, _, _, rfl⟩
  · exact Or.inl hd
  · rcases mem_setCol hd with h1 | h1
    · exact Or.inr (by rw [h1])
    · exact Or.inl h1

lemma deriveDate_pres_name {t t' : Table} {n : String} {c0 : Col}
    (h : deriveDate t = .ok t') (hn : ¬ n = "data")
    (hall : ∀ d ∈ t, d.name = n → d = c0) :
    ∀ d ∈ t', d.name = n → d = c0 := by
  intro d hd hdn
  rcases mem_deriveDate h hd with h1 | h1
  · exact hall d h1 hdn
  · exact absurd (hdn.symm.trans h1) hn

lemma enrich_ok_decomp {a t' : Table} (h : enrich a = .ok t') :
    ∃ t1, deriveDate (decodeCategorical a) = .ok t1
      ∧ t' = mapStep (mapStep t1 "idade" "faixa_etaria" .categorical (cutCell ageBins))
          "salario" "faixa_salarial" .categorical cutSalaryCell := by
  unfold enrich createDerivedFields at h
  cases hd : deriveDate (decodeCategorical a) with
  | error e => rw [hd] at h; cases h
  | ok t1 =>
    rw [hd] at h
    exact ⟨t1, rfl, (Except.ok.inj h).symm⟩

lemma not_mem_targets {x : String} (hx : x ∉ targetNames) :
    ¬ x = "sexo_desc" ∧ ¬ x = "grau_instrucao_desc" ∧ ¬ x = "tipo_movimentacao_desc"
    ∧ ¬ x = "data" ∧ ¬ x = "faixa_etaria" ∧ ¬ x = "faixa_salarial" := by
  refine ⟨?_, ?_, ?_, ?_, ?_, ?_⟩
  · intro hc; subst hc; exact hx (by decide)
  · intro hc; subst hc; exact hx (by decide)
  · intro hc; subst hc; exact hx (by decide)
  · intro hc; subst hc; exact hx (by decide)
  · intro hc; subst hc; exact hx (by decide)
  · intro hc; subst hc; exact hx (by decide)

lemma getCol_enrich_ne {a t' : Table} {x : String} (h : enrich a = .ok t')
    (hx : x ∉ targetNames) : getCol t' x = getCol a x := by
  obtain ⟨h1, h2, h3, h4, h5, h6⟩ := not_mem_targets hx
  rcases enrich_ok_decomp h with ⟨t1, hdd, rfl⟩
  rw [getCol_mapStep_ne h6, getCol_mapStep_ne h5, getCol_deriveDate_ne hdd h4]
  unfold decodeCategorical
  rw [getCol_mapStep_ne h3, getCol_mapStep_ne h2, getCol_mapStep_ne h1]

lemma insertLe_length {α : Type} (le : α → α → Bool) (a : α) (l : List α) :
    (insertLe le a l).length = l.length + 1 := by
  induction l with
  | nil => rfl
  | cons b bs ih =>
    unfold insertLe
    by_cases h : le a b = true
    · rw [if_pos h]; rfl
    · rw [if_neg h]
      simp [ih]

lemma sortLe_length {α : Type} (le : α → α → Bool) (l : List α) :
    (sortLe le l).length = l.length := by
  induction l with
  | nil => rfl
  | cons a as ih =>
    unfold sortLe
    rw [insertLe_length, ih]
    rfl

lemma median_isSome {l : List ℚ} (hl : l ≠ []) : ∃ m, median l = some m := by
  unfold median
  have hn : (sortLe (fun a b => decide (a ≤ b)) l).length ≠ 0 := by
    rw [sortLe_length]
    exact fun hc => hl (List.length_eq_zero.mp hc)
  rw [if_neg hn]
  by_cases hodd : (sortLe (fun a b => decide (a ≤ b)) l).length % 2 = 1
  · rw [if_pos hodd]
    have hlt : (sortLe (fun a b => decide (a ≤ b)) l).length / 2
        < (sortLe (fun a b => decide (a ≤ b)) l).length :=
      Nat.div_lt_self (Nat.pos_of_ne_zero hn) one_lt_two
    rw [List.getElem?_eq_getElem hlt]
    exact ⟨_, rfl⟩
  · rw [if_neg hodd]
    have hlt : (sortLe (fun a b => decide (a ≤ b)) l).length / 2
        < (sortLe (fun a b => decide (a ≤ b)) l).length :=
      Nat.div_lt_self (Nat.pos_of_ne_zero hn) one_lt_two
    have hlt2 : (sortLe (fun a b => decide (a ≤ b)) l).length / 2 - 1
        < (sortLe (fun a b => decide (a ≤ b)) l).length :=
      lt_of_le_of_lt (Nat.sub_le _ _) hlt
    rw [List.getElem?_eq_getElem hlt, List.getElem?_eq_getElem hlt2]
    exact ⟨_, rfl⟩

lemma fill_no_missing {l : List Cell} {v : Cell} (hv : v ≠ Cell.missing) :
    (l.map (fillCell v)).contains Cell.missing = false := by
  rw [List.contains_eq_any_beq]
  rw [List.any_eq_false]
  intro x hx
  rcases List.mem_map.mp hx with ⟨cl, _, rfl⟩
  cases cl with
  | num q => simp [fillCell]
  | str s => simp [fillCell]
  | missing => simpa [fillCell] using Ne.symm hv

lemma imputeCol_nomissing {c c' : Col} (h : imputeCol c = .ok c')
    (hk : c.kind ≠ ColKind.temporal)
    (hnum : c.kind = .numeric → ∀ cell ∈ c.cells, cell = Cell.missing ∨ ∃ q, cell = Cell.num q)
    (hpres : ∃ cell ∈ c.cells, cell ≠ Cell.missing) :
    c'.cells.contains Cell.missing = false := by
  cases c with
  | mk nm k cells =>
    cases k with
    | temporal => exact absurd rfl hk
    | numeric =>
      simp only [imputeCol] at h
      by_cases hc : cells.contains Cell.missing = true
      · rw [if_pos hc] at h
        have hne : presentNums cells ≠ [] := by
          rcases hpres with ⟨cell, hcell, hcm⟩
          rcases hnum rfl cell hcell with rfl | ⟨q, rfl⟩
          · exact absurd rfl hcm
          · intro hc2
            have hq : q ∈ presentNums cells := by
              unfold presentNums
              exact List.mem_filterMap.mpr ⟨Cell.num q, hcell, rfl⟩
            rw [hc2] at hq
            exact absurd hq (List.not_mem_nil q)
        rcases median_isSome hne with ⟨m, hm⟩
        rw [hm] at h
        simp only [Except.ok.injEq] at h
        rw [← h]
        exact fill_no_missing (by simp)
      · rw [if_neg hc] at h
        simp only [Except.ok.injEq] at h
        rw [← h]
        simpa using hc
    | categorical =>
      simp only [imputeCol] at h
      by_cases hc : cells.contains Cell.missing = true
      · rw [if_pos hc] at h
        cases hm : pandasMode cells with
        | none => rw [hm] at h; cases h
        | some m =>
          rw [hm] at h
          simp only [Except.ok.injEq] at h
          rw [← h]
          have hmm : m ∈ presentCells cells := (pandasMode_spec hm).1
          have hmne : m ≠ Cell.missing := by
            rcases List.mem_filter.mp hmm with ⟨_, hm2⟩
            simpa using hm2
          exact fill_no_missing hmne
      · rw [if_neg hc] at h
        simp only [Except.ok.injEq] at h
        rw [← h]
        simpa using hc

lemma getCol_imputed {t a : Table} (h : handleMissingValues t = .ok a) :
    ∀ x, (getCol t x = none ∧ getCol a x = none)
    ∨ ∃ c c', getCol t x = some c ∧ getCol a x = some c' ∧ imputeCol c = .ok c' := by
  have hf := exceptMap_ok_forall h
  clear h
  induction hf with
  | nil => exact fun x => Or.inl ⟨rfl, rfl⟩
  | @cons c c' l l' hcc htail ih =>
    intro x
    have hname : c'.name = c.name := (imputeCol_spec hcc).1
    by_cases hx : c.name = x
    · refine Or.inr ⟨c, c', ?_, ?_, hcc⟩
      · rw [getCol, if_pos hx]
      · rw [getCol, if_pos (hname.trans hx)]
    · rcases ih x with ⟨h1, h2⟩ | ⟨d, d', hd, hd', hdd⟩
      · refine Or.inl ⟨?_, ?_⟩
        · rw [getCol, if_neg hx]; exact h1
        · rw [getCol, if_neg (fun hc => hx (hname ▸ hc))]; exact h2
      · refine Or.inr ⟨d, d', ?_, ?_, hdd⟩
        · rw [getCol, if_neg hx]; exact hd
        · rw [getCol, if_neg (fun hc => hx (hname ▸ hc))]; exact hd'

/-- C7 (amended).  Null-freedom holds for every column of the input that
has at least one present value, carries a well-typed non-temporal dtype,
and is not one of the six decode/derive target names: its image in
`process(t)` has no missing entries.  Columns named like a target are
overwritten by decoding/derivation and can reacquire missing entries
(see the counterexample); datetime columns are not imputed at all. -/
theorem c7_null_freedom_amended :
    ∀ (t t' : Table) (x : String) (c : Col),
    processData t = .ok t' →
    x ∉ targetNames →
    getCol t x = some c →
    c.kind ≠ ColKind.temporal →
    (c.kind = .numeric → ∀ cell ∈ c.cells, cell = Cell.missing ∨ ∃ q, cell = Cell.num q) →
    (∃ cell ∈ c.cells, cell ≠ Cell.missing) →
    ∃ c', getCol t' x = some c' ∧ c'.cells.contains Cell.missing = false := by
  intro t t' x c hp hx hg hk hnum hpres
  unfold processData at hp
  cases hh : handleMissingValues t with
  | error e => rw [hh] at hp; cases hp
  | ok a =>
    rw [hh] at hp
    rcases getCol_imputed hh x with ⟨h1, _⟩ | ⟨d, d', hd, hd', hdd⟩
    · rw [hg] at h1; cases h1
    · rw [hg] at hd
      have hcd : c = d := Option.some.inj hd
      subst hcd
      refine ⟨d', ?_, ?_⟩
      · rw [getCol_enrich_ne hp hx]
        exact hd'
      · exact imputeCol_nomissing hdd hk hnum hpres
/-- C7 (counterexample).  The column `sexo_desc` holds a present value in
the input, yet `process` overwrites it by decoding the unmapped code
`'3'` to NaN: the output column has a missing entry although the input
column had none. -/
theorem c7_counterexample :
    processData [⟨"sexo", .categorical, [.str "3"]⟩,
                 ⟨"sexo_desc", .categorical, [.str "x"]⟩]
      = .ok [⟨"sexo", .categorical, [.str "3"]⟩,
             ⟨"sexo_desc", .categorical, [.missing]⟩]
    ∧ Cell.str "x" ≠ Cell.missing
    ∧ [Cell.missing].contains Cell.missing = true :=
  ⟨rfl, by decide, rfl⟩

/-- C7 witness: the amended theorem applied to a two-row categorical
column with one missing value, every hypothesis discharged there. -/
theorem c7_witness :
    ∃ c', getCol [⟨"uf", .categorical, [.str "SP", .str "SP"]⟩] "uf" = some c'
      ∧ c'.cells.contains Cell.missing = false :=
  c7_null_freedom_amended [⟨"uf", .categorical, [.str "SP", .missing]⟩]
    [⟨"uf", .categorical, [.str "SP", .str "SP"]⟩] "uf"
    ⟨"uf", .categorical, [.str "SP", .missing]⟩
    (by decide) (by decide) rfl (by decide) (fun h => nomatch h)
    ⟨.str "SP", by decide, by decide⟩

end Caged

namespace Caged

lemma imputeCol_idem {c c' : Col} (h : imputeCol c = .ok c') : imputeCol c' = .ok c' := by
  cases c with
  | mk nm k cells =>
    cases k with
    | temporal =>
      simp only [imputeCol, Except.ok.injEq] at h
      rw [← h]
      rfl
    | numeric =>
      simp only [imputeCol] at h
      by_cases hc : cells.contains Cell.missing = true
      · rw [if_pos hc] at h
        cases hm : median (presentNums cells) with
        | none =>
          rw [hm] at h
          simp only [Except.ok.injEq] at h
          rw [← h]
          simp only [imputeCol, if_pos hc, hm]
        | some m =>
          rw [hm] at h
          simp only [Except.ok.injEq] at h
          rw [← h]
          have hnomiss : (cells.map (fillCell (Cell.num m))).contains Cell.missing = false :=
            fill_no_missing (by simp)
          simp only [imputeCol]
          rw [if_neg (by rw [hnomiss]; exact Bool.false_ne_true)]
      · rw [if_neg hc] at h
        simp only [Except.ok.injEq] at h
        rw [← h]
        have hfalse : cells.contains Cell.missing = false := by simpa using hc
        simp only [imputeCol]
        rw [if_neg (by rw [hfalse]; exact Bool.false_ne_true)]
    | categorical =>
      simp only [imputeCol] at h
      by_cases hc : cells.contains Cell.missing = true
      · rw [if_pos hc] at h
        cases hm : pandasMode cells with
        | none => rw [hm] at h; cases h
        | some m =>
          rw [hm] at h
          simp only [Except.ok.injEq] at h
          rw [← h]
          have hmne : m ≠ Cell.missing := by
            have hmm := (pandasMode_spec hm).1
            rcases List.mem_filter.mp hmm with ⟨_, hm2⟩
            simpa using hm2
          have hnomiss : (cells.map (fillCell m)).contains Cell.missing = false :=
            fill_no_missing hmne
          simp only [imputeCol]
          rw [if_neg (by rw [hnomiss]; exact Bool.false_ne_true)]
      · rw [if_neg hc] at h
        simp only [Except.ok.injEq] at h
        rw [← h]
        have hfalse : cells.contains Cell.missing = false := by simpa using hc
        simp only [imputeCol]
        rw [if_neg (by rw [hfalse]; exact Bool.false_ne_true)]

lemma stable_of_impute_table {t a : Table} (h : handleMissingValues t = .ok a) :
    ∀ c ∈ a, imputeCol c = .ok c := by
  have hf := exceptMap_ok_forall h
  clear h
  induction hf with
  | nil => intro c hc; simp at hc
  | cons hcc _ ih =>
    intro c hc
    rcases List.mem_cons.mp hc with rfl | hc
    · exact imputeCol_idem hcc
    · exact ih c hc

lemma tdiff_of_impute {K : List String} :
    ∀ {t1 a2 : Table}, List.Forall₂ (fun c c' => imputeCol c = .ok c') t1 a2 →
    (∀ c ∈ t1, imputeCol c = .ok c ∨ c.name ∈ K) → TDiff K t1 a2 := by
  intro t1 a2 hf
  induction hf with
  | nil => intro _; exact List.Forall₂.nil
  | @cons c c' l l' hcc _ ih =>
    intro hstable
    refine List.Forall₂.cons ⟨(imputeCol_spec hcc).1, ?_⟩
      (ih (fun d hd => hstable d (List.mem_cons_of_mem _ hd)))
    intro hK
    rcases hstable c (List.mem_cons_self _ _) with hs | hs
    · rw [hs] at hcc
      exact (Except.ok.inj hcc).symm
    · exact absurd hs hK

lemma tdiff_hasCol {K : List String} :
    ∀ {P Q : Table}, TDiff K P Q → ∀ x, hasCol Q x = hasCol P x := by
  intro P Q h
  induction h with
  | nil => intro x; rfl
  | @cons p q l l' hpq _ ih =>
    intro x
    simp only [hasCol, List.any_cons, hpq.1]
    rw [show (l'.any (fun c => c.name = x)) = (l.any (fun c => c.name = x)) from by
      have := ih x
      simpa [hasCol] using this]

lemma tdiff_getCol {K : List String} {x : String} (hx : x ∉ K) :
    ∀ {P Q : Table}, TDiff K P Q → getCol Q x = getCol P x := by
  intro P Q h
  induction h with
  | nil => rfl
  | @cons p q l l' hpq _ ih =>
    by_cases hp : p.name = x
    · have hq : q.name = x := hpq.1.trans hp
      rw [getCol, if_pos hq, getCol, if_pos hp]
      rw [hpq.2 (fun hc => hx (hp ▸ hc))]
    · have hq : ¬ q.name = x := fun hc => hp (hpq.1.symm.trans hc)
      rw [getCol, if_neg hq, getCol, if_neg hp]
      exact ih

lemma tdiff_nil {K : List String} :
    ∀ {P Q : Table}, TDiff K P Q → (∀ p ∈ P, p.name ∉ K) → P = Q := by
  intro P Q h
  induction h with
  | nil => intro _; rfl
  | @cons p q l l' hpq _ ih =>
    intro hall
    rw [(hpq.2 (hall p (List.mem_cons_self _ _))),
      ih (fun d hd => hall d (List.mem_cons_of_mem _ hd))]
end Caged

namespace Caged

lemma tdiff_overwrite {K : List String} {c : Col} :
    ∀ {P Q : Table}, TDiff K P Q →
    TDiff (K.filter (fun y => y ≠ c.name))
      (P.map (fun d => if d.name = c.name then c else d))
      (Q.map (fun d => if d.name = c.name then c else d)) := by
  intro P Q h
  induction h with
  | nil => exact List.Forall₂.nil
  | @cons p q l l' hpq _ ih =>
    simp only [List.map_cons]
    by_cases hp : p.name = c.name
    · have hq : q.name = c.name := hpq.1.trans hp
      rw [if_pos hp, if_pos hq]
      exact List.Forall₂.cons ⟨rfl, fun _ => rfl⟩ ih
    · have hq : ¬ q.name = c.name := fun hc => hp (hpq.1.symm.trans hc)
      rw [if_neg hp, if_neg hq]
      refine List.Forall₂.cons ⟨hpq.1, ?_⟩ ih
      intro hK
      refine hpq.2 (fun hc => hK ?_)
      rw [List.mem_filter]
      exact ⟨hc, by simpa using hp⟩
  
lemma tdiff_append_same {K : List String} {c : Col} :
    ∀ {P Q : Table}, TDiff K P Q → TDiff K (P ++ [c]) (Q ++ [c]) := by
  intro P Q h
  induction h with
  | nil => exact List.Forall₂.cons ⟨rfl, fun _ => rfl⟩ List.Forall₂.nil
  | cons hpq _ ih => exact List.Forall₂.cons hpq ih

lemma tdiff_filter_of_names {K : List String} {z : String} :
    ∀ {P Q : Table}, TDiff K P Q → (∀ p ∈ P, ¬ p.name = z) →
    TDiff (K.filter (fun y => y ≠ z)) P Q := by
  intro P Q h
  induction h with
  | nil => intro _; exact List.Forall₂.nil
  | @cons p q l l' hpq _ ih =>
    intro hz
    refine List.Forall₂.cons ⟨hpq.1, ?_⟩ (ih (fun d hd => hz d (List.mem_cons_of_mem _ hd)))
    intro hn
    refine hpq.2 (fun hc => hn ?_)
    rw [List.mem_filter]
    exact ⟨hc, by simpa using hz p (List.mem_cons_self _ _)⟩

lemma tdiff_setCol {K : List String} {c : Col} {P Q : Table} (h : TDiff K P Q) :
    TDiff (K.filter (fun y => y ≠ c.name)) (setCol P c) (setCol Q c) := by
  unfold setCol
  rw [tdiff_hasCol h c.name]
  by_cases hh : hasCol P c.name = true
  · rw [if_pos hh, if_pos hh]
    exact tdiff_overwrite h
  · rw [if_neg hh, if_neg hh]
    have hz : ∀ p ∈ P, ¬ p.name = c.name := by
      intro p hp hc
      rw [hasCol] at hh
      exact hh (List.any_eq_true.mpr ⟨p, hp, decide_eq_true hc⟩)
    exact tdiff_append_same (tdiff_filter_of_names h hz)

lemma filter_ne_of_not_mem {K : List String} {z : String} (hz : z ∉ K) :
    K.filter (fun y => y ≠ z) = K := by
  induction K with
  | nil => rfl
  | cons a as ih =>
    have ha : ¬ (a = z) := fun hc => hz (by rw [hc]; exact List.mem_cons_self _ _)
    rw [List.filter_cons]
    rw [if_pos (by simpa using ha)]
    rw [ih (fun hc => hz (List.mem_cons_of_mem _ hc))]

lemma not_mem_filter_ne {K : List String} {x z : String} (hx : x ∉ K) :
    x ∉ K.filter (fun y => y ≠ z) := by
  intro hc
  exact hx (List.mem_filter.mp hc).1

lemma tdiff_mapStep {K : List String} {src tgt : String} {k : ColKind} {f : Cell → Cell}
    {P Q : Table} (h : TDiff K P Q) (hsrc : src ∉ K)
    (hguard : tgt ∈ K → hasCol P src = true) :
    TDiff (K.filter (fun y => y ≠ tgt)) (mapStep P src tgt k f) (mapStep Q src tgt k f) := by
  unfold mapStep
  rw [tdiff_getCol hsrc h]
  cases hg : getCol P src with
  | none =>
    have htgt : tgt ∉ K := by
      intro hc
      have := hguard hc
      rw [hasCol_eq_isSome, hg] at this
      cases this
    rw [filter_ne_of_not_mem htgt]
    exact h
  | some c =>
    exact @tdiff_setCol K ⟨tgt, k, c.cells.map f⟩ P Q h

lemma tdiff_deriveDate {K : List String} {P Q P' : Table} (h : TDiff K P Q)
    (hano : "ano" ∉ K) (hmes : "mes" ∉ K)
    (hguard : "data" ∈ K → (hasCol P "ano" = true ∧ hasCol P "mes" = true))
    (hP : deriveDate P = .ok P') :
    ∃ Q', deriveDate Q = .ok Q' ∧ TDiff (K.filter (fun y => y ≠ "data")) P' Q' := by
  have hga : getCol Q "ano" = getCol P "ano" := tdiff_getCol hano h
  have hgm : getCol Q "mes" = getCol P "mes" := tdiff_getCol hmes h
  cases hca : getCol P "ano" with
  | none =>
    have hdata : "data" ∉ K := by
      intro hc
      have := (hguard hc).1
      rw [hasCol_eq_isSome, hca] at this
      cases this
    simp only [deriveDate, hca] at hP
    refine ⟨Q, ?_, ?_⟩
    · simp only [deriveDate, hga, hca]
    · rw [filter_ne_of_not_mem hdata, ← Except.ok.inj hP]
      exact h
  | some ca =>
    cases hcm : getCol P "mes" with
    | none =>
      have hdata : "data" ∉ K := by
        intro hc
        have := (hguard hc).2
        rw [hasCol_eq_isSome, hcm] at this
        cases this
      simp only [deriveDate, hca, hcm] at hP
      refine ⟨Q, ?_, ?_⟩
      · simp only [deriveDate, hga, hgm, hca, hcm]
      · rw [filter_ne_of_not_mem hdata, ← Except.ok.inj hP]
        exact h
    | some cm =>
      simp only [deriveDate, hca, hcm] at hP
      cases hmk : exceptMap (fun p => makeDateCell p.1 p.2) (ca.cells.zip cm.cells) with
      | error e => rw [hmk] at hP; cases hP
      | ok d =>
        rw [hmk] at hP
        simp only [Except.ok.injEq] at hP
        refine ⟨setCol Q ⟨"data", .temporal, d⟩, ?_, ?_⟩
        · simp only [deriveDate, hga, hgm, hca, hcm, hmk]
        · rw [← hP]
          exact @tdiff_setCol K ⟨"data", .temporal, d⟩ P Q h

end Caged

namespace Caged

lemma decodeCategorical_eq (a : Table) :
    decodeCategorical a
      = mapStep (mapStep (mapStep a "sexo" "sexo_desc" .categorical (mapCellStr sexoMapping))
          "grau_instrucao" "grau_instrucao_desc" .categorical (mapCellNum grauInstrucaoMapping))
          "tipo_movimentacao" "tipo_movimentacao_desc" .categorical
          (mapCellNum tipoMovimentacaoMapping) := rfl

lemma mem_ite_cond {x s : String} {b : Bool} :
    (x ∈ (if b = true then [s] else [])) ↔ (x = s ∧ b = true) := by
  cases b <;> simp

lemma mem_activeTargets {t : Table} {x : String} :
    x ∈ activeTargets t ↔
      (x = "sexo_desc" ∧ hasCol t "sexo" = true)
      ∨ (x = "grau_instrucao_desc" ∧ hasCol t "grau_instrucao" = true)
      ∨ (x = "tipo_movimentacao_desc" ∧ hasCol t "tipo_movimentacao" = true)
      ∨ (x = "data" ∧ (hasCol t "ano" && hasCol t "mes") = true)
      ∨ (x = "faixa_etaria" ∧ hasCol t "idade" = true)
      ∨ (x = "faixa_salarial" ∧ hasCol t "salario" = true) := by
  simp only [activeTargets, List.mem_append, mem_ite_cond, List.append_assoc]

lemma activeTargets_sub {t : Table} : ∀ y ∈ activeTargets t, y ∈ targetNames := by
  intro y hy
  rcases mem_activeTargets.mp hy with ⟨rfl, _⟩ | ⟨rfl, _⟩ | ⟨rfl, _⟩ | ⟨rfl, _⟩
    | ⟨rfl, _⟩ | ⟨rfl, _⟩ <;> decide

lemma mem_mapStep_active {d : Col} {t : Table} {src tgt : String} {k : ColKind}
    {f : Cell → Cell} (h : d ∈ mapStep t src tgt k f) :
    d ∈ t ∨ (d.name = tgt ∧ hasCol t src = true) := by
  cases hg : getCol t src with
  | none =>
    simp only [mapStep, hg] at h
    exact Or.inl h
  | some c =>
    simp only [mapStep, hg] at h
    rcases mem_setCol h with h1 | h1
    · refine Or.inr ⟨by rw [h1], ?_⟩
      rw [hasCol_eq_isSome, hg]
      rfl
    · exact Or.inl h1

lemma mem_deriveDate_active {d : Col} {t t' : Table} (h : deriveDate t = .ok t')
    (hd : d ∈ t') :
    d ∈ t ∨ (d.name = "data" ∧ (hasCol t "ano" = true ∧ hasCol t "mes" = true)) := by
  rcases deriveDate_cases h with ⟨rfl, _⟩ | ⟨ca, cm, dd, hca, hcm, _, rfl⟩
  · exact Or.inl hd
  · rcases mem_setCol hd with h1 | h1
    · refine Or.inr ⟨by rw [h1], ?_, ?_⟩
      · rw [hasCol_eq_isSome, hca]; rfl
      · rw [hasCol_eq_isSome, hcm]; rfl
    · exact Or.inl h1

lemma hasCol_deriveDate_ne {t t' : Table} {x : String} (h : deriveDate t = .ok t')
    (hx : ¬ x = "data") : hasCol t' x = hasCol t x := by
  rw [hasCol_eq_isSome, getCol_deriveDate_ne h hx, hasCol_eq_isSome]

lemma hasCol_enrich_ne {a t' : Table} {x : String} (h : enrich a = .ok t')
    (hx : x ∉ targetNames) : hasCol t' x = hasCol a x := by
  rw [hasCol_eq_isSome, getCol_enrich_ne h hx, hasCol_eq_isSome]

lemma mem_enrich_active {a t1 : Table} (h : enrich a = .ok t1) :
    ∀ c ∈ t1, c ∈ a ∨ c.name ∈ activeTargets a := by
  rcases enrich_ok_decomp h with ⟨t4, hdd, rfl⟩
  rw [decodeCategorical_eq] at hdd
  intro c hc
  have hb1 : ∀ y, ¬ y = "sexo_desc" →
      hasCol (mapStep a "sexo" "sexo_desc" .categorical (mapCellStr sexoMapping)) y
        = hasCol a y := fun y hy => hasCol_mapStep_ne hy
  have hb2 : ∀ y, ¬ y = "sexo_desc" → ¬ y = "grau_instrucao_desc" →
      hasCol (mapStep (mapStep a "sexo" "sexo_desc" .categorical (mapCellStr sexoMapping))
        "grau_instrucao" "grau_instrucao_desc" .categorical (mapCellNum grauInstrucaoMapping)) y
        = hasCol a y := by
    intro y hy1 hy2
    rw [hasCol_mapStep_ne hy2, hb1 y hy1]
  have hb3 : ∀ y, ¬ y = "sexo_desc" → ¬ y = "grau_instrucao_desc" →
      ¬ y = "tipo_movimentacao_desc" →
      hasCol (decodeCategorical a) y = hasCol a y := by
    intro y hy1 hy2 hy3
    rw [decodeCategorical_eq, hasCol_mapStep_ne hy3, hb2 y hy1 hy2]
  have hb4 : ∀ y, ¬ y = "sexo_desc" → ¬ y = "grau_instrucao_desc" →
      ¬ y = "tipo_movimentacao_desc" → ¬ y = "data" →
      hasCol t4 y = hasCol a y := by
    intro y hy1 hy2 hy3 hy4
    rw [hasCol_deriveDate_ne hdd hy4, ← decodeCategorical_eq]
    exact hb3 y hy1 hy2 hy3
  rcases mem_mapStep_active hc with hc | ⟨hn, hs⟩
  · rcases mem_mapStep_active hc with hc | ⟨hn, hs⟩
    · rcases mem_deriveDate_active hdd hc with hc | ⟨hn, hs1, hs2⟩
      · rcases mem_mapStep_active hc with hc | ⟨hn, hs⟩
        · rcases mem_mapStep_active hc with hc | ⟨hn, hs⟩
          · rcases mem_mapStep_active hc with hc | ⟨hn, hs⟩
            · exact Or.inl hc
            · exact Or.inr (mem_activeTargets.mpr (Or.inl ⟨hn, hs⟩))
          · rw [hb1 "grau_instrucao" (by decide)] at hs
            exact Or.inr (mem_activeTargets.mpr (Or.inr (Or.inl ⟨hn, hs⟩)))
        · rw [hb2 "tipo_movimentacao" (by decide) (by decide)] at hs
          exact Or.inr (mem_activeTargets.mpr (Or.inr (Or.inr (Or.inl ⟨hn, hs⟩))))
      · rw [show mapStep (mapStep (mapStep a "sexo" "sexo_desc" ColKind.categorical
            (mapCellStr sexoMapping)) "grau_instrucao" "grau_instrucao_desc"
            ColKind.categorical (mapCellNum grauInstrucaoMapping))
            "tipo_movimentacao" "tipo_movimentacao_desc" ColKind.categorical
            (mapCellNum tipoMovimentacaoMapping) = decodeCategorical a from
            (decodeCategorical_eq a).symm] at hs1 hs2
        rw [hb3 "ano" (by decide) (by decide) (by decide)] at hs1
        rw [hb3 "mes" (by decide) (by decide) (by decide)] at hs2
        exact Or.inr (mem_activeTargets.mpr
          (Or.inr (Or.inr (Or.inr (Or.inl ⟨hn, by rw [Bool.and_eq_true]; exact ⟨hs1, hs2⟩⟩)))))
    · rw [hb4 "idade" (by decide) (by decide) (by decide) (by decide)] at hs
      exact Or.inr (mem_activeTargets.mpr
        (Or.inr (Or.inr (Or.inr (Or.inr (Or.inl ⟨hn, hs⟩))))))
  · rw [hasCol_mapStep_ne (by decide : ¬ "salario" = "faixa_etaria")] at hs
    rw [hb4 "salario" (by decide) (by decide) (by decide) (by decide)] at hs
    exact Or.inr (mem_activeTargets.mpr
      (Or.inr (Or.inr (Or.inr (Or.inr (Or.inr ⟨hn, hs⟩))))))
end Caged

namespace Caged

lemma hasCol_mapStep_tgt {t : Table} {src tgt : String} {k : ColKind} {f : Cell → Cell}
    {c : Col} (hg : getCol t src = some c) :
    hasCol (mapStep t src tgt k f) tgt = true := by
  simp only [mapStep, hg, hasCol_setCol]
  simp

lemma mapStep_self {a t1 : Table} {src tgt : String} {k : ColKind} {f : Cell → Cell}
    (hgt : getCol t1 src = getCol a src)
    (hstep : ∀ cs, getCol a src = some cs →
        hasCol t1 tgt = true
        ∧ ∀ d ∈ t1, d.name = tgt → d = ⟨tgt, k, cs.cells.map f⟩) :
    mapStep t1 src tgt k f = t1 := by
  cases hg : getCol a src with
  | none => simp only [mapStep, hgt, hg]
  | some cs =>
    obtain ⟨hh, hall⟩ := hstep cs hg
    simp only [mapStep, hgt, hg]
    exact setCol_self hh hall

lemma enrich_idem {a t1 : Table} (h : enrich a = .ok t1) : enrich t1 = .ok t1 := by
  rcases enrich_ok_decomp h with ⟨t4, hdd, ht1⟩
  have hgsexo : getCol t1 "sexo" = getCol a "sexo" := getCol_enrich_ne h (by decide)
  have hggrau : getCol t1 "grau_instrucao" = getCol a "grau_instrucao" :=
    getCol_enrich_ne h (by decide)
  have hgtipo : getCol t1 "tipo_movimentacao" = getCol a "tipo_movimentacao" :=
    getCol_enrich_ne h (by decide)
  have hgano : getCol t1 "ano" = getCol a "ano" := getCol_enrich_ne h (by decide)
  have hgmes : getCol t1 "mes" = getCol a "mes" := getCol_enrich_ne h (by decide)
  have hgidade : getCol t1 "idade" = getCol a "idade" := getCol_enrich_ne h (by decide)
  have hgsal : getCol t1 "salario" = getCol a "salario" := getCol_enrich_ne h (by decide)
  have hano3 : getCol (decodeCategorical a) "ano" = getCol a "ano" := by
    rw [decodeCategorical_eq, getCol_mapStep_ne (by decide), getCol_mapStep_ne (by decide),
      getCol_mapStep_ne (by decide)]
  have hmes3 : getCol (decodeCategorical a) "mes" = getCol a "mes" := by
    rw [decodeCategorical_eq, getCol_mapStep_ne (by decide), getCol_mapStep_ne (by decide),
      getCol_mapStep_ne (by decide)]
  have hgrau1 : getCol (mapStep a "sexo" "sexo_desc" ColKind.categorical
      (mapCellStr sexoMapping)) "grau_instrucao" = getCol a "grau_instrucao" :=
    getCol_mapStep_ne (by decide)
  have htipo2 : getCol (mapStep (mapStep a "sexo" "sexo_desc" ColKind.categorical
      (mapCellStr sexoMapping)) "grau_instrucao" "grau_instrucao_desc" ColKind.categorical
      (mapCellNum grauInstrucaoMapping)) "tipo_movimentacao" = getCol a "tipo_movimentacao" := by
    rw [getCol_mapStep_ne (by decide), getCol_mapStep_ne (by decide)]
  have hidade4 : getCol t4 "idade" = getCol a "idade" := by
    rw [getCol_deriveDate_ne hdd (by decide), decodeCategorical_eq,
      getCol_mapStep_ne (by decide), getCol_mapStep_ne (by decide),
      getCol_mapStep_ne (by decide)]
  have hsal5 : getCol (mapStep t4 "idade" "faixa_etaria" ColKind.categorical
      (cutCell ageBins)) "salario" = getCol a "salario" := by
    rw [getCol_mapStep_ne (by decide), getCol_deriveDate_ne hdd (by decide),
      decodeCategorical_eq, getCol_mapStep_ne (by decide), getCol_mapStep_ne (by decide),
      getCol_mapStep_ne (by decide)]
  have hs1 : mapStep t1 "sexo" "sexo_desc" ColKind.categorical (mapCellStr sexoMapping) = t1 := by
    apply mapStep_self hgsexo
    intro cs hg
    constructor
    · rw [ht1, hasCol_mapStep_ne (by decide), hasCol_mapStep_ne (by decide),
        hasCol_deriveDate_ne hdd (by decide), decodeCategorical_eq,
        hasCol_mapStep_ne (by decide), hasCol_mapStep_ne (by decide)]
      exact hasCol_mapStep_tgt hg
    · rw [ht1]
      apply mapStep_pres_name (by decide)
      apply mapStep_pres_name (by decide)
      apply deriveDate_pres_name hdd (by decide)
      rw [decodeCategorical_eq]
      apply mapStep_pres_name (by decide)
      apply mapStep_pres_name (by decide)
      exact mem_mapStep_name hg
  have hs2 : mapStep t1 "grau_instrucao" "grau_instrucao_desc" ColKind.categorical
      (mapCellNum grauInstrucaoMapping) = t1 := by
    apply mapStep_self hggrau
    intro cs hg
    have hg1 : getCol (mapStep a "sexo" "sexo_desc" ColKind.categorical
        (mapCellStr sexoMapping)) "grau_instrucao" = some cs := by rw [hgrau1]; exact hg
    constructor
    · rw [ht1, hasCol_mapStep_ne (by decide), hasCol_mapStep_ne (by decide),
        hasCol_deriveDate_ne hdd (by decide), decodeCategorical_eq,
        hasCol_mapStep_ne (by decide)]
      exact hasCol_mapStep_tgt hg1
    · rw [ht1]
      apply mapStep_pres_name (by decide)
      apply mapStep_pres_name (by decide)
      apply deriveDate_pres_name hdd (by decide)
      rw [decodeCategorical_eq]
      apply mapStep_pres_name (by decide)
      exact mem_mapStep_name hg1
  have hs3 : mapStep t1 "tipo_movimentacao" "tipo_movimentacao_desc" ColKind.categorical
      (mapCellNum tipoMovimentacaoMapping) = t1 := by
    apply mapStep_self hgtipo
    intro cs hg
    have hg2 : getCol (mapStep (mapStep a "sexo" "sexo_desc" ColKind.categorical
        (mapCellStr sexoMapping)) "grau_instrucao" "grau_instrucao_desc" ColKind.categorical
        (mapCellNum grauInstrucaoMapping)) "tipo_movimentacao" = some cs := by
      rw [htipo2]; exact hg
    constructor
    · rw [ht1, hasCol_mapStep_ne (by decide), hasCol_mapStep_ne (by decide),
        hasCol_deriveDate_ne hdd (by decide), decodeCategorical_eq]
      exact hasCol_mapStep_tgt hg2
    · rw [ht1]
      apply mapStep_pres_name (by decide)
      apply mapStep_pres_name (by decide)
      apply deriveDate_pres_name hdd (by decide)
      rw [decodeCategorical_eq]
      exact mem_mapStep_name hg2
  have hs5 : mapStep t1 "idade" "faixa_etaria" ColKind.categorical (cutCell ageBins) = t1 := by
    apply mapStep_self hgidade
    intro cs hg
    have hg4 : getCol t4 "idade" = some cs := by rw [hidade4]; exact hg
    constructor
    · rw [ht1, hasCol_mapStep_ne (by decide)]
      exact hasCol_mapStep_tgt hg4
    · rw [ht1]
      apply mapStep_pres_name (by decide)
      exact mem_mapStep_name hg4
  have hs6 : mapStep t1 "salario" "faixa_salarial" ColKind.categorical cutSalaryCell = t1 := by
    apply mapStep_self hgsal
    intro cs hg
    have hg5 : getCol (mapStep t4 "idade" "faixa_etaria" ColKind.categorical
        (cutCell ageBins)) "salario" = some cs := by rw [hsal5]; exact hg
    constructor
    · rw [ht1]
      exact hasCol_mapStep_tgt hg5
    · rw [ht1]
      exact mem_mapStep_name hg5
  have hdec : decodeCategorical t1 = t1 := by
    rw [decodeCategorical_eq, hs1, hs2, hs3]
  have hder : deriveDate t1 = .ok t1 := by
    rcases deriveDate_cases hdd with ⟨heq4, hnone⟩ | ⟨ca, cm, d, hca, hcm, hmk, ht4⟩
    · rcases hnone with hn | hn
      · have hga : getCol t1 "ano" = none := by rw [hgano, ← hano3, hn]
        simp only [deriveDate, hga]
      · have hgm : getCol t1 "mes" = none := by rw [hgmes, ← hmes3, hn]
        cases hga : getCol t1 "ano" with
        | none => simp only [deriveDate, hga]
        | some ca => simp only [deriveDate, hga, hgm]
    · have hga : getCol t1 "ano" = some ca := by rw [hgano, ← hano3, hca]
      have hgm : getCol t1 "mes" = some cm := by rw [hgmes, ← hmes3, hcm]
      have hh : hasCol t1 "data" = true := by
        rw [ht1, hasCol_mapStep_ne (by decide), hasCol_mapStep_ne (by decide), ht4,
          hasCol_setCol]
        simp
      have hall : ∀ d' ∈ t1, d'.name = "data" → d' = ⟨"data", ColKind.temporal, d⟩ := by
        rw [ht1]
        apply mapStep_pres_name (by decide)
        apply mapStep_pres_name (by decide)
        rw [ht4]
        intro d' hd' hn'
        exact mem_setCol_name hd' hn'
      simp only [deriveDate, hga, hgm, hmk]
      rw [setCol_self hh hall]
  simp only [enrich, createDerivedFields, hdec, hder, hs5, hs6]

lemma tdiff_enrich {K : List String} {P Q P' : Table} (h : TDiff K P Q)
    (hKsub : ∀ x ∈ K, x ∈ targetNames)
    (hg1 : "sexo_desc" ∈ K → hasCol P "sexo" = true)
    (hg2 : "grau_instrucao_desc" ∈ K → hasCol P "grau_instrucao" = true)
    (hg3 : "tipo_movimentacao_desc" ∈ K → hasCol P "tipo_movimentacao" = true)
    (hg4 : "data" ∈ K → hasCol P "ano" = true ∧ hasCol P "mes" = true)
    (hg5 : "faixa_etaria" ∈ K → hasCol P "idade" = true)
    (hg6 : "faixa_salarial" ∈ K → hasCol P "salario" = true)
    (hP : enrich P = .ok P') :
    ∃ Q', enrich Q = .ok Q' ∧ P' = Q' := by
  have hnotK : ∀ s : String, s ∉ targetNames → s ∉ K := fun s hs hc => hs (hKsub s hc)
  rcases enrich_ok_decomp hP with ⟨t4, hdd, hP'eq⟩
  rw [decodeCategorical_eq] at hdd
  have h1 := @tdiff_mapStep _ "sexo" "sexo_desc" ColKind.categorical
    (mapCellStr sexoMapping) _ _ h (hnotK _ (by decide)) hg1
  have h2 := @tdiff_mapStep _ "grau_instrucao" "grau_instrucao_desc" ColKind.categorical
    (mapCellNum grauInstrucaoMapping) _ _ h1 (not_mem_filter_ne (hnotK _ (by decide)))
    (fun hm => by
      rw [hasCol_mapStep_ne (by decide)]
      exact hg2 (List.mem_filter.mp hm).1)
  have h3 := @tdiff_mapStep _ "tipo_movimentacao" "tipo_movimentacao_desc" ColKind.categorical
    (mapCellNum tipoMovimentacaoMapping) _ _ h2
    (not_mem_filter_ne (not_mem_filter_ne (hnotK _ (by decide))))
    (fun hm => by
      rw [hasCol_mapStep_ne (by decide), hasCol_mapStep_ne (by decide)]
      exact hg3 (List.mem_filter.mp (List.mem_filter.mp hm).1).1)
  obtain ⟨Q4, hddQ, h4⟩ := tdiff_deriveDate h3
    (not_mem_filter_ne (not_mem_filter_ne (not_mem_filter_ne (hnotK _ (by decide)))))
    (not_mem_filter_ne (not_mem_filter_ne (not_mem_filter_ne (hnotK _ (by decide)))))
    (fun hm => by
      have hmK : "data" ∈ K :=
        (List.mem_filter.mp (List.mem_filter.mp (List.mem_filter.mp hm).1).1).1
      constructor
      · rw [hasCol_mapStep_ne (by decide), hasCol_mapStep_ne (by decide),
          hasCol_mapStep_ne (by decide)]
        exact (hg4 hmK).1
      · rw [hasCol_mapStep_ne (by decide), hasCol_mapStep_ne (by decide),
          hasCol_mapStep_ne (by decide)]
        exact (hg4 hmK).2)
    hdd
  have h5 := @tdiff_mapStep _ "idade" "faixa_etaria" ColKind.categorical
    (cutCell ageBins) _ _ h4
    (not_mem_filter_ne (not_mem_filter_ne (not_mem_filter_ne (not_mem_filter_ne
      (hnotK _ (by decide))))))
    (fun hm => by
      have hmK : "faixa_etaria" ∈ K :=
        (List.mem_filter.mp (List.mem_filter.mp (List.mem_filter.mp
          (List.mem_filter.mp hm).1).1).1).1
      rw [hasCol_deriveDate_ne hdd (by decide), hasCol_mapStep_ne (by decide),
        hasCol_mapStep_ne (by decide), hasCol_mapStep_ne (by decide)]
      exact hg5 hmK)
  have h6 := @tdiff_mapStep _ "salario" "faixa_salarial" ColKind.categorical
    cutSalaryCell _ _ h5
    (not_mem_filter_ne (not_mem_filter_ne (not_mem_filter_ne (not_mem_filter_ne
      (not_mem_filter_ne (hnotK _ (by decide)))))))
    (fun hm => by
      have hmK : "faixa_salarial" ∈ K :=
        (List.mem_filter.mp (List.mem_filter.mp (List.mem_filter.mp (List.mem_filter.mp
          (List.mem_filter.mp hm).1).1).1).1).1
      rw [hasCol_mapStep_ne (by decide), hasCol_deriveDate_ne hdd (by decide),
        hasCol_mapStep_ne (by decide), hasCol_mapStep_ne (by decide),
        hasCol_mapStep_ne (by decide)]
      exact hg6 hmK)
  refine ⟨mapStep (mapStep Q4 "idade" "faixa_etaria" ColKind.categorical (cutCell ageBins))
    "salario" "faixa_salarial" ColKind.categorical cutSalaryCell, ?_, ?_⟩
  · simp only [enrich, createDerivedFields]
    rw [decodeCategorical_eq]
    simp only [hddQ]
  · rw [hP'eq]
    refine tdiff_nil h6 ?_
    intro p _ hc
    simp only [List.mem_filter, decide_eq_true_eq] at hc
    obtain ⟨⟨⟨⟨⟨⟨hmem, hn1⟩, hn2⟩, hn3⟩, hn4⟩, hn5⟩, hn6⟩ := hc
    have hmem2 := hKsub _ hmem
    simp only [targetNames, List.mem_cons, List.not_mem_nil, or_false] at hmem2
    rcases hmem2 with hq | hq | hq | hq | hq | hq
    · exact hn1 hq
    · exact hn2 hq
    · exact hn3 hq
    · exact hn4 hq
    · exact hn5 hq
    · exact hn6 hq

end Caged

namespace Caged

/-- C6 (counterexample).  `c6t` contains every derived column, yet
`process_data` is not idempotent on it: the first pass succeeds and
overwrites `sexo_desc` with `map(sexo)`, where the unmapped code `'3'`
becomes NaN; the second pass then raises `KeyError` when `mode()[0]` is
taken of the now all-missing `sexo_desc` column, so `process(process(t))`
is an exception, not `process(t)`. -/
theorem c6_counterexample :
    (∀ n ∈ targetNames, hasCol c6t n = true)
    ∧ processData c6t = .ok c6t1
    ∧ processData c6t1
        = .error "KeyError: 0 (mode of an all-missing column is empty)" :=
  ⟨by decide, by decide, by decide⟩

/-- C6 (amended).  On a table that already contains the derived columns, a
second run of `process_data` need not succeed at all (the counterexample:
decoding can write NaN into a `_desc` column and the second pass's
`mode()[0]` then raises `KeyError`); but whenever both runs do return a
table, the second run returns its own input unchanged:
`processData t = ok t1` and `processData t1 = ok t2` imply `t2 = t1`. -/
theorem c6_idempotent_amended (t t1 t2 : Table)
    (_hT : ∀ n ∈ targetNames, hasCol t n = true)
    (h1 : processData t = .ok t1) (h2 : processData t1 = .ok t2) : t2 = t1 := by
  cases hi : handleMissingValues t with
  | error e => simp only [processData, hi] at h1; cases h1
  | ok a =>
    simp only [processData, hi] at h1
    cases hj : handleMissingValues t1 with
    | error e => simp only [processData, hj] at h2; cases h2
    | ok b =>
      simp only [processData, hj] at h2
      have hstab : ∀ c ∈ t1, imputeCol c = .ok c ∨ c.name ∈ activeTargets a := by
        intro c hc
        rcases mem_enrich_active h1 c hc with hca | hname
        · exact Or.inl (stable_of_impute_table hi c hca)
        · exact Or.inr hname
      have htd : TDiff (activeTargets a) t1 b :=
        tdiff_of_impute (exceptMap_ok_forall hj) hstab
      have hg1 : "sexo_desc" ∈ activeTargets a → hasCol t1 "sexo" = true := by
        intro hm
        rw [hasCol_enrich_ne h1 (by decide)]
        rcases mem_activeTargets.mp hm with ⟨_, hh⟩ | ⟨hq, _⟩ | ⟨hq, _⟩ | ⟨hq, _⟩
          | ⟨hq, _⟩ | ⟨hq, _⟩
        · exact hh
        · exact absurd hq (by decide)
        · exact absurd hq (by decide)
        · exact absurd hq (by decide)
        · exact absurd hq (by decide)
        · exact absurd hq (by decide)
      have hg2 : "grau_instrucao_desc" ∈ activeTargets a
          → hasCol t1 "grau_instrucao" = true := by
        intro hm
        rw [hasCol_enrich_ne h1 (by decide)]
        rcases mem_activeTargets.mp hm with ⟨hq, _⟩ | ⟨_, hh⟩ | ⟨hq, _⟩ | ⟨hq, _⟩
          | ⟨hq, _⟩ | ⟨hq, _⟩
        · exact absurd hq (by decide)
        · exact hh
        · exact absurd hq (by decide)
        · exact absurd hq (by decide)
        · exact absurd hq (by decide)
        · exact absurd hq (by decide)
      have hg3 : "tipo_movimentacao_desc" ∈ activeTargets a
          → hasCol t1 "tipo_movimentacao" = true := by
        intro hm
        rw [hasCol_enrich_ne h1 (by decide)]
        rcases mem_activeTargets.mp hm with ⟨hq, _⟩ | ⟨hq, _⟩ | ⟨_, hh⟩ | ⟨hq, _⟩
          | ⟨hq, _⟩ | ⟨hq, _⟩
        · exact absurd hq (by decide)
        · exact absurd hq (by decide)
        · exact hh
        · exact absurd hq (by decide)
        · exact absurd hq (by decide)
        · exact absurd hq (by decide)
      have hg4 : "data" ∈ activeTargets a
          → hasCol t1 "ano" = true ∧ hasCol t1 "mes" = true := by
        intro hm
        rw [hasCol_enrich_ne h1 (by decide), hasCol_enrich_ne h1 (by decide)]
        rcases mem_activeTargets.mp hm with ⟨hq, _⟩ | ⟨hq, _⟩ | ⟨hq, _⟩ | ⟨_, hh⟩
          | ⟨hq, _⟩ | ⟨hq, _⟩
        · exact absurd hq (by decide)
        · exact absurd hq (by decide)
        · exact absurd hq (by decide)
        · rw [Bool.and_eq_true] at hh
          exact hh
        · exact absurd hq (by decide)
        · exact absurd hq (by decide)
      have hg5 : "faixa_etaria" ∈ activeTargets a → hasCol t1 "idade" = true := by
        intro hm
        rw [hasCol_enrich_ne h1 (by decide)]
        rcases mem_activeTargets.mp hm with ⟨hq, _⟩ | ⟨hq, _⟩ | ⟨hq, _⟩ | ⟨hq, _⟩
          | ⟨_, hh⟩ | ⟨hq, _⟩
        · exact absurd hq (by decide)
        · exact absurd hq (by decide)
        · exact absurd hq (by decide)
        · exact absurd hq (by decide)
        · exact hh
        · exact absurd hq (by decide)
      have hg6 : "faixa_salarial" ∈ activeTargets a → hasCol t1 "salario" = true := by
        intro hm
        rw [hasCol_enrich_ne h1 (by decide)]
        rcases mem_activeTargets.mp hm with ⟨hq, _⟩ | ⟨hq, _⟩ | ⟨hq, _⟩ | ⟨hq, _⟩
          | ⟨hq, _⟩ | ⟨_, hh⟩
        · exact absurd hq (by decide)
        · exact absurd hq (by decide)
        · exact absurd hq (by decide)
        · exact absurd hq (by decide)
        · exact absurd hq (by decide)
        · exact hh
      obtain ⟨Q', hQ', heq⟩ := tdiff_enrich htd activeTargets_sub hg1 hg2 hg3 hg4 hg5 hg6
        (enrich_idem h1)
      rw [hQ'] at h2
      rw [heq]
      exact (Except.ok.inj h2).symm

/-- C6 (witness).  The fixed-point run: `c6w` carries every derived column
and a decodable `sexo = '1'`; the first pass rewrites `sexo_desc` to
`Masculino` and the second pass reproduces its input exactly. -/
theorem c6_witness :
    (∀ n ∈ targetNames, hasCol c6w n = true)
    ∧ processData c6w = .ok c6w1
    ∧ processData c6w1 = .ok c6w1
    ∧ c6w1 = c6w1 :=
  ⟨by decide, by decide, by decide,
   c6_idempotent_amended c6w c6w1 c6w1 (by decide) (by decide) (by decide)⟩

end Caged
